import Mathlib

/-!
Verification of the rocket-app per-channel ordered event application engine.

The definitions below are a shallow embedding of
`src/services/message-ingestion/src/services/message-processor.service.ts`
(`MessageProcessorService.processMessage`, `processBufferedMessages`,
`applyStateChange`), of the repository layer
(`src/shared/repositories/RocketRepository.ts`), and of the statistics
query service (`RocketService.getRocketStatistics`).

Modelling conventions:
* The three durable stores (rocket table, processed-message audit table,
  buffered-message table) are lists of records; `findUnique` / `findByChannel`
  are `List.find?` with the corresponding key predicates, `create` is cons and
  `delete` removes the (unique-keyed) record.
* JavaScript numbers that the validation layer constrains to integers are
  `Int` (speeds) or `Nat` (message numbers); timestamps are an opaque `Nat`
  (the `Date`/ISO-string round trip between buffering and draining is the
  identity on this representation, as it is on well-formed dates).
* `JSON.stringify`/`JSON.parse` of a payload is modelled as the identity on
  the structured payload, so a buffered record stores the payload itself.
* Thrown exceptions are `Except Unit`; in the source the only throw site of
  `applyStateChange` (`ensureRocket`) precedes every write, so an `error`
  result leaves the state as it was, which is exactly what the embedding does.
* The distinct return points of `processMessage` (each with its own log call
  in the source) are reified as a `ProcessOutcome` so that theorems can state
  which branch ran; the catch-all `try`/`catch` in `processBufferedMessages`
  that never rethrows makes the drain a total function on states.
-/

inductive RocketStatus where
  | ACTIVE
  | EXPLODED
deriving DecidableEq, Repr

inductive MessageType where
  | ROCKET_LAUNCHED
  | ROCKET_SPEED_INCREASED
  | ROCKET_SPEED_DECREASED
  | ROCKET_EXPLODED
  | ROCKET_MISSION_CHANGED
deriving DecidableEq, Repr

/-- Payloads of the five wire message kinds (field `by` of the speed messages
is rendered `speedBy`, `by` being reserved in Lean). -/
inductive MessagePayload where
  | rocketLaunched (type : String) (launchSpeed : Int) (mission : String)
  | rocketSpeedIncreased (speedBy : Int)
  | rocketSpeedDecreased (speedBy : Int)
  | rocketExploded (reason : String)
  | rocketMissionChanged (newMission : String)
deriving DecidableEq, Repr

def MessagePayload.messageType : MessagePayload → MessageType
  | .rocketLaunched _ _ _ => .ROCKET_LAUNCHED
  | .rocketSpeedIncreased _ => .ROCKET_SPEED_INCREASED
  | .rocketSpeedDecreased _ => .ROCKET_SPEED_DECREASED
  | .rocketExploded _ => .ROCKET_EXPLODED
  | .rocketMissionChanged _ => .ROCKET_MISSION_CHANGED

/-- A row of the rocket (entity) table. The Prisma-managed `id`, `createdAt`,
`updatedAt` columns are never read by the engine and are omitted. -/
structure Rocket where
  channel : String
  type : String
  currentSpeed : Int
  mission : String
  status : RocketStatus
  explosionReason : Option String
  lastMessageNumber : Nat
  lastMessageTime : Nat
deriving DecidableEq, Repr

/-- An inbound message: envelope metadata plus kind-specific payload
(`messageType` of the metadata is determined by the payload constructor). -/
structure IncomingMessage where
  channel : String
  messageNumber : Nat
  messageTime : Nat
  payload : MessagePayload
deriving DecidableEq, Repr

def IncomingMessage.messageType (im : IncomingMessage) : MessageType :=
  im.payload.messageType

/-- A row of the processed-message (applied event) audit table. -/
structure MessageRecord where
  channel : String
  messageNumber : Nat
  messageTime : Nat
  messageType : MessageType
  payload : MessagePayload
deriving DecidableEq, Repr

/-- A row of the buffered-message (pending) table. -/
structure BufferedMessage where
  channel : String
  messageNumber : Nat
  messageTime : Nat
  messageType : MessageType
  payload : MessagePayload
deriving DecidableEq, Repr

def mkMessageRecord (im : IncomingMessage) : MessageRecord :=
  { channel := im.channel, messageNumber := im.messageNumber,
    messageTime := im.messageTime, messageType := im.messageType,
    payload := im.payload }

def mkBufferedMessage (im : IncomingMessage) : BufferedMessage :=
  { channel := im.channel, messageNumber := im.messageNumber,
    messageTime := im.messageTime, messageType := im.messageType,
    payload := im.payload }

/-- Reconstruction of an incoming message from a buffered record
(`JSON.parse(buffered.payload)` plus the stored metadata). -/
def messageOfBuffered (b : BufferedMessage) : IncomingMessage :=
  { channel := b.channel, messageNumber := b.messageNumber,
    messageTime := b.messageTime, payload := b.payload }

/-- Audit record written when a buffered message is drained (the source copies
the buffered row's own fields into the message table). -/
def mkRecordOfBuffered (b : BufferedMessage) : MessageRecord :=
  { channel := b.channel, messageNumber := b.messageNumber,
    messageTime := b.messageTime, messageType := b.messageType,
    payload := b.payload }

/-- The three durable stores the engine touches. -/
structure DbState where
  rockets : List Rocket
  messages : List MessageRecord
  buffered : List BufferedMessage
deriving DecidableEq, Repr

def emptyDb : DbState := { rockets := [], messages := [], buffered := [] }

/-- `RocketRepository.findByChannel`. -/
def findRocket (rockets : List Rocket) (channel : String) : Option Rocket :=
  rockets.find? (fun r => r.channel == channel)

/-- `RocketRepository.update` on the unique `channel` key (the engine only
calls it with the freshly-read row's fields already merged, so the partial
update is the full replacement below). -/
def updateRocket (rockets : List Rocket) (channel : String) (updated : Rocket) :
    List Rocket :=
  rockets.map (fun r => if r.channel == channel then updated else r)

/-- `MessageRepository.findUnique` on the (channel, messageNumber) key. -/
def findMessage (messages : List MessageRecord) (channel : String)
    (messageNumber : Nat) : Option MessageRecord :=
  messages.find? (fun m => m.channel == channel && m.messageNumber == messageNumber)

/-- `BufferedMessageRepository.findUnique` on the (channel, messageNumber) key. -/
def findBuffered (buffered : List BufferedMessage) (channel : String)
    (messageNumber : Nat) : Option BufferedMessage :=
  buffered.find? (fun b => b.channel == channel && b.messageNumber == messageNumber)

/-- `BufferedMessageRepository.delete` by id; since (channel, messageNumber)
is a unique key, deleting the found record's id removes exactly the first
(and only) record with that key. -/
def eraseBuffered (buffered : List BufferedMessage) (channel : String)
    (messageNumber : Nat) : List BufferedMessage :=
  buffered.eraseP (fun b => b.channel == channel && b.messageNumber == messageNumber)

/-- `MessageProcessorService.applyStateChange`: the state transition function.
Takes the rocket table and the already-loaded rocket row, returns the updated
table together with the rocket the source returns.  `.error ()` is the
`ensureRocket` throw (`Rocket not found for channel ...`). -/
def applyStateChange (rockets : List Rocket) (rocket : Option Rocket)
    (im : IncomingMessage) : Except Unit (List Rocket × Rocket) :=
  match im.payload with
  | .rocketLaunched type launchSpeed mission =>
    match rocket with
    | some existing =>
      -- rocket already exists for channel: ignore launch, return it unchanged
      .ok (rockets, existing)
    | none =>
      let newRocket : Rocket :=
        { channel := im.channel, type := type, currentSpeed := launchSpeed,
          mission := mission, status := .ACTIVE, explosionReason := none,
          lastMessageNumber := im.messageNumber,
          lastMessageTime := im.messageTime }
      .ok (newRocket :: rockets, newRocket)
  | .rocketSpeedIncreased speedBy =>
    match rocket with
    | none => .error ()
    | some existing =>
      if existing.status = .EXPLODED then
        .ok (rockets, existing)
      else
        let updated : Rocket :=
          { existing with
            currentSpeed := existing.currentSpeed + speedBy,
            lastMessageNumber := im.messageNumber,
            lastMessageTime := im.messageTime }
        .ok (updateRocket rockets im.channel updated, updated)
  | .rocketSpeedDecreased speedBy =>
    match rocket with
    | none => .error ()
    | some existing =>
      if existing.status = .EXPLODED then
        .ok (rockets, existing)
      else
        let updated : Rocket :=
          { existing with
            currentSpeed := max 0 (existing.currentSpeed - speedBy),
            lastMessageNumber := im.messageNumber,
            lastMessageTime := im.messageTime }
        .ok (updateRocket rockets im.channel updated, updated)
  | .rocketExploded reason =>
    match rocket with
    | none => .error ()
    | some existing =>
      let updated : Rocket :=
        { existing with
          status := .EXPLODED, explosionReason := some reason,
          currentSpeed := 0, lastMessageNumber := im.messageNumber,
          lastMessageTime := im.messageTime }
      .ok (updateRocket rockets im.channel updated, updated)
  | .rocketMissionChanged newMission =>
    match rocket with
    | none => .error ()
    | some existing =>
      if existing.status = .EXPLODED then
        .ok (rockets, existing)
      else
        let updated : Rocket :=
          { existing with
            mission := newMission,
            lastMessageNumber := im.messageNumber,
            lastMessageTime := im.messageTime }
        .ok (updateRocket rockets im.channel updated, updated)

theorem length_eraseBuffered_lt {buffered : List BufferedMessage}
    {channel : String} {n : Nat} {b : BufferedMessage}
    (h : findBuffered buffered channel n = some b) :
    (eraseBuffered buffered channel n).length < buffered.length := by
  have h' : buffered.find?
      (fun x => x.channel == channel && x.messageNumber == n) = some b := h
  have hmem : b ∈ buffered := List.mem_of_find?_eq_some h'
  have hp := List.find?_some h'
  have := List.length_eraseP_add_one (p := fun x =>
    x.channel == channel && x.messageNumber == n) hmem hp
  unfold eraseBuffered
  omega

/-- Recursion core of `MessageProcessorService.processBufferedMessages`.  The
source's self-recursion terminates because each step deletes one buffered
record; `fuel` is instantiated with the number of buffered records, which is
provably enough (each recursive step consumes one record, and with an empty
buffer the lookup misses), so the fuel never runs out before the lookup-miss
exit of the source. -/
def processBufferedMessagesFuel : Nat → DbState → String → Nat → DbState
  | 0, st, _, _ => st
  | fuel + 1, st, channel, expectedMessageNumber =>
    match findBuffered st.buffered channel expectedMessageNumber with
    | none => st
    | some buffered =>
      match findRocket st.rockets channel with
      | none =>
        -- rocket not found for buffered message: delete it, stop draining
        { st with
          buffered := eraseBuffered st.buffered channel expectedMessageNumber }
      | some rocket =>
        match applyStateChange st.rockets (some rocket)
            (messageOfBuffered buffered) with
        | .error _ => st
        | .ok (rockets', _) =>
          processBufferedMessagesFuel fuel
            { rockets := rockets',
              messages := mkRecordOfBuffered buffered :: st.messages,
              buffered := eraseBuffered st.buffered channel expectedMessageNumber }
            channel (expectedMessageNumber + 1)

/-- `MessageProcessorService.processBufferedMessages`: drain the pending
buffer at the expected number, recursively; its catch-all `catch` (which logs
and does not rethrow) makes this a total function. -/
def processBufferedMessages (st : DbState) (channel : String)
    (expectedMessageNumber : Nat) : DbState :=
  processBufferedMessagesFuel st.buffered.length st channel
    expectedMessageNumber

/-- One tag per distinct return point of `processMessage`, matching the log
call made there (`logMessageDuplicate`, the buffered-duplicate debug log,
`logMessageOutOfOrder`, the buffering log, `logMessageProcessed`). -/
inductive ProcessOutcome where
  | duplicate
  | bufferedDuplicate
  | outOfOrder
  | buffered
  | processed
deriving DecidableEq, Repr

/-- Shared tail of `processMessage`: apply the state change, write the audit
record, then drain the buffer from the next number. -/
def applyAndFinish (st : DbState) (rocket : Option Rocket)
    (im : IncomingMessage) : Except Unit (DbState × ProcessOutcome) :=
  match applyStateChange st.rockets rocket im with
  | .error e => .error e
  | .ok (rockets', _) =>
    let st' : DbState :=
      { rockets := rockets',
        messages := mkMessageRecord im :: st.messages,
        buffered := st.buffered }
    .ok (processBufferedMessages st' im.channel (im.messageNumber + 1), .processed)

/-- `MessageProcessorService.processMessage`. -/
def processMessage (st : DbState) (im : IncomingMessage) :
    Except Unit (DbState × ProcessOutcome) :=
  if (findMessage st.messages im.channel im.messageNumber).isSome then
    .ok (st, .duplicate)
  else if (findBuffered st.buffered im.channel im.messageNumber).isSome then
    .ok (st, .bufferedDuplicate)
  else
    match findRocket st.rockets im.channel with
    | some rocket =>
      if im.messageNumber < rocket.lastMessageNumber then
        .ok ({ st with messages := mkMessageRecord im :: st.messages }, .outOfOrder)
      else if rocket.lastMessageNumber + 1 < im.messageNumber then
        .ok ({ st with buffered := mkBufferedMessage im :: st.buffered }, .buffered)
      else
        applyAndFinish st (some rocket) im
    | none => applyAndFinish st none im

/-- A caller submitting one message: on a thrown error the state is kept (the
only throw site precedes every write). -/
def submitMessage (st : DbState) (im : IncomingMessage) : DbState :=
  match processMessage st im with
  | .ok (st', _) => st'
  | .error _ => st

/-- Sequential submission of a list of messages. -/
def submitAll (st : DbState) (msgs : List IncomingMessage) : DbState :=
  msgs.foldl submitMessage st

/-- The message with sequence number `i` of a per-channel event assignment. -/
def mkMsg (channel : String) (ev : Nat → MessagePayload) (tm : Nat → Nat)
    (i : Nat) : IncomingMessage :=
  { channel := channel, messageNumber := i, messageTime := tm i, payload := ev i }

/-- The rocket table obtained by applying events `1, …, n` of the assignment
strictly in order through the state transition function; this is the
canonical in-order outcome against which runs are compared. -/
def foldApply (channel : String) (ev : Nat → MessagePayload) (tm : Nat → Nat) :
    Nat → List Rocket
  | 0 => []
  | n + 1 =>
    let rockets := foldApply channel ev tm n
    match applyStateChange rockets (findRocket rockets channel)
        (mkMsg channel ev tm (n + 1)) with
    | .ok (rockets', _) => rockets'
    | .error _ => rockets

/-- Fuel-driven recursion core of `chainEnd` (each live step removes one
element, so `bn.length` fuel always reaches the not-member exit). -/
def chainEndFuel : Nat → List Nat → Nat → Nat
  | 0, _, k => k - 1
  | fuel + 1, bn, k =>
    if k ∈ bn then chainEndFuel fuel (bn.erase k) (k + 1) else k - 1

/-- End of the contiguous run of numbers `k, k+1, …` present in `bn`: the
largest `m` with `k, …, m ∈ bn` (and `k - 1` when `k ∉ bn`). -/
def chainEnd (bn : List Nat) (k : Nat) : Nat :=
  chainEndFuel bn.length bn k

theorem chainEnd_of_not_mem (bn : List Nat) (k : Nat) (h : k ∉ bn) :
    chainEnd bn k = k - 1 := by
  unfold chainEnd
  cases bn with
  | nil => rfl
  | cons x xs =>
    rw [List.length_cons]
    simp only [chainEndFuel]
    rw [if_neg h]

theorem chainEnd_cons_of_mem (bn : List Nat) (k : Nat) (h : k ∈ bn) :
    chainEnd bn k = chainEnd (bn.erase k) (k + 1) := by
  show chainEndFuel bn.length bn k =
    chainEndFuel (bn.erase k).length (bn.erase k) (k + 1)
  have hlen : bn.length = (bn.erase k).length + 1 := by
    have := List.length_erase_add_one h
    omega
  rw [hlen]
  simp only [chainEndFuel]
  rw [if_pos h]

/-- `RocketRepository.count({status})` / the status filter of the aggregate:
the rows matching the optional status filter. -/
def filterByStatus (rockets : List Rocket) (status : Option RocketStatus) :
    List Rocket :=
  match status with
  | some s => rockets.filter (fun r => r.status == s)
  | none => rockets

/-- `RocketRepository.getAverageSpeed(where)`: Prisma's `_avg` of
`currentSpeed` over the matching rows, with `|| 0` turning the null average
of an empty selection into 0. -/
def getAverageSpeed (rockets : List Rocket) (statusFilter : Option RocketStatus) :
    ℚ :=
  match filterByStatus rockets statusFilter with
  | [] => 0
  | _ :: _ =>
    ((filterByStatus rockets statusFilter).map (fun r => (r.currentSpeed : ℚ))).sum /
      ((filterByStatus rockets statusFilter).length : ℚ)

/-- Result shape of `RocketService.getRocketStatistics`. -/
structure RocketStatistics where
  total : Nat
  active : Nat
  exploded : Nat
  averageSpeed : Int
deriving DecidableEq, Repr

/-- `RocketService.getRocketStatistics`: counts plus
`Math.round(averageSpeed)` where the average is taken with the
`{status: ACTIVE}` filter; `Math.round x = ⌊x + 1/2⌋` is Lean's `round`. -/
def getRocketStatistics (rockets : List Rocket) : RocketStatistics :=
  { total := rockets.length,
    active := (filterByStatus rockets (some .ACTIVE)).length,
    exploded := (filterByStatus rockets (some .EXPLODED)).length,
    averageSpeed := round (getAverageSpeed rockets (some .ACTIVE)) }

/-! ### Basic lemmas about the store operations -/

theorem findRocket_eq_some_channel {rockets : List Rocket} {channel : String}
    {r : Rocket} (h : findRocket rockets channel = some r) : r.channel = channel := by
  have h' : rockets.find? (fun x => x.channel == channel) = some r := h
  have := List.find?_some h'
  simpa using this

theorem findRocket_isSome_iff {rockets : List Rocket} {channel : String} :
    (findRocket rockets channel).isSome ↔ ∃ r ∈ rockets, r.channel = channel := by
  unfold findRocket
  rw [List.find?_isSome]
  simp

theorem findMessage_isSome_iff {messages : List MessageRecord} {channel : String}
    {n : Nat} :
    (findMessage messages channel n).isSome ↔
      ∃ m ∈ messages, m.channel = channel ∧ m.messageNumber = n := by
  unfold findMessage
  rw [List.find?_isSome]
  simp

theorem findBuffered_isSome_iff {buffered : List BufferedMessage} {channel : String}
    {n : Nat} :
    (findBuffered buffered channel n).isSome ↔
      ∃ b ∈ buffered, b.channel = channel ∧ b.messageNumber = n := by
  unfold findBuffered
  rw [List.find?_isSome]
  simp

theorem findMessage_cons {m : MessageRecord} {messages : List MessageRecord}
    {channel : String} {n : Nat} :
    findMessage (m :: messages) channel n =
      if m.channel = channel ∧ m.messageNumber = n then some m
      else findMessage messages channel n := by
  unfold findMessage
  rw [List.find?_cons]
  by_cases h : m.channel = channel ∧ m.messageNumber = n
  · simp [h.1, h.2]
  · have hc : (m.channel == channel && m.messageNumber == n) = false := by
      rcases not_and_or.mp h with h' | h' <;> simp [h']
    simp [hc, if_neg h]

theorem findBuffered_cons {b : BufferedMessage} {buffered : List BufferedMessage}
    {channel : String} {n : Nat} :
    findBuffered (b :: buffered) channel n =
      if b.channel = channel ∧ b.messageNumber = n then some b
      else findBuffered buffered channel n := by
  unfold findBuffered
  rw [List.find?_cons]
  by_cases h : b.channel = channel ∧ b.messageNumber = n
  · simp [h.1, h.2]
  · have hc : (b.channel == channel && b.messageNumber == n) = false := by
      rcases not_and_or.mp h with h' | h' <;> simp [h']
    simp [hc, if_neg h]

theorem findRocket_updateRocket {rockets : List Rocket} {channel : String}
    {r updated : Rocket} (h : findRocket rockets channel = some r)
    (hch : updated.channel = channel) :
    findRocket (updateRocket rockets channel updated) channel = some updated := by
  induction rockets with
  | nil => simp [findRocket] at h
  | cons x xs ih =>
    by_cases hx : x.channel = channel
    · simp [updateRocket, findRocket, List.find?_cons, hx, hch]
    · have hx' : (x.channel == channel) = false := by simp [hx]
      have h2 : findRocket xs channel = some r := by
        unfold findRocket at h ⊢
        rw [List.find?_cons, hx'] at h
        exact h
      have ihh := ih h2
      show findRocket ((if (x.channel == channel) = true then updated else x) ::
        updateRocket xs channel updated) channel = some updated
      rw [hx']
      simp only [Bool.false_eq_true, if_false]
      unfold findRocket at ihh ⊢
      rw [List.find?_cons, hx']
      exact ihh

/-! ### Lemmas about `chainEnd` -/

theorem chainEnd_ge (bn : List Nat) (k : Nat) : k - 1 ≤ chainEnd bn k := by
  by_cases h : k ∈ bn
  · rw [chainEnd_cons_of_mem bn k h]
    have := chainEnd_ge (bn.erase k) (k + 1)
    omega
  · rw [chainEnd_of_not_mem bn k h]
termination_by bn.length
decreasing_by
  have h1 := List.length_erase_add_one h
  omega

theorem chainEnd_mem (bn : List Nat) (k : Nat) (hk : 1 ≤ k) :
    ∀ j, k ≤ j → j ≤ chainEnd bn k → j ∈ bn := by
  by_cases h : k ∈ bn
  · rw [chainEnd_cons_of_mem bn k h]
    intro j hj1 hj2
    by_cases hjk : j = k
    · exact hjk ▸ h
    · have := chainEnd_mem (bn.erase k) (k + 1) (by omega) j (by omega) hj2
      exact List.mem_of_mem_erase this
  · rw [chainEnd_of_not_mem bn k h]
    intro j hj1 hj2
    omega
termination_by bn.length
decreasing_by
  have h1 := List.length_erase_add_one h
  omega

theorem chainEnd_succ_not_mem (bn : List Nat) (k : Nat) (hk : 1 ≤ k)
    (hnd : bn.Nodup) : chainEnd bn k + 1 ∉ bn := by
  by_cases h : k ∈ bn
  · rw [chainEnd_cons_of_mem bn k h]
    have ih := chainEnd_succ_not_mem (bn.erase k) (k + 1) (by omega) (hnd.erase k)
    have hge : k ≤ chainEnd (bn.erase k) (k + 1) := by
      have := chainEnd_ge (bn.erase k) (k + 1)
      omega
    intro hmem
    have hne : chainEnd (bn.erase k) (k + 1) + 1 ≠ k := by omega
    exact ih ((hnd.mem_erase_iff).mpr ⟨hne, hmem⟩)
  · rw [chainEnd_of_not_mem bn k h]
    have heq : k - 1 + 1 = k := by omega
    rw [heq]
    exact h
termination_by bn.length
decreasing_by
  have h1 := List.length_erase_add_one h
  omega

/-! ### Buffered records of a per-channel event assignment -/

def bufRec (channel : String) (ev : Nat → MessagePayload) (tm : Nat → Nat)
    (j : Nat) : BufferedMessage :=
  mkBufferedMessage (mkMsg channel ev tm j)

theorem bufRec_channel (channel : String) (ev : Nat → MessagePayload)
    (tm : Nat → Nat) (j : Nat) : (bufRec channel ev tm j).channel = channel := rfl

theorem bufRec_messageNumber (channel : String) (ev : Nat → MessagePayload)
    (tm : Nat → Nat) (j : Nat) : (bufRec channel ev tm j).messageNumber = j := rfl

theorem messageOfBuffered_bufRec (channel : String) (ev : Nat → MessagePayload)
    (tm : Nat → Nat) (j : Nat) :
    messageOfBuffered (bufRec channel ev tm j) = mkMsg channel ev tm j := rfl

theorem mkRecordOfBuffered_bufRec (channel : String) (ev : Nat → MessagePayload)
    (tm : Nat → Nat) (j : Nat) :
    mkRecordOfBuffered (bufRec channel ev tm j) =
      mkMessageRecord (mkMsg channel ev tm j) := rfl

theorem findBuffered_map_bufRec (channel : String) (ev : Nat → MessagePayload)
    (tm : Nat → Nat) (bns : List Nat) (k : Nat) :
    findBuffered (bns.map (bufRec channel ev tm)) channel k =
      if k ∈ bns then some (bufRec channel ev tm k) else none := by
  induction bns with
  | nil => simp [findBuffered]
  | cons j js ih =>
    rw [List.map_cons, findBuffered_cons]
    by_cases hjk : j = k
    · subst hjk
      simp [bufRec_channel, bufRec_messageNumber]
    · have : ¬((bufRec channel ev tm j).channel = channel ∧
          (bufRec channel ev tm j).messageNumber = k) := by
        simp [bufRec_channel, bufRec_messageNumber, hjk]
      rw [if_neg this, ih]
      by_cases hmem : k ∈ js
      · simp [hmem, List.mem_cons, Ne.symm hjk]
      · simp [hmem, List.mem_cons, Ne.symm hjk]

theorem eraseBuffered_map_bufRec (channel : String) (ev : Nat → MessagePayload)
    (tm : Nat → Nat) (bns : List Nat) (k : Nat) :
    eraseBuffered (bns.map (bufRec channel ev tm)) channel k =
      (bns.erase k).map (bufRec channel ev tm) := by
  induction bns with
  | nil => simp [eraseBuffered]
  | cons j js ih =>
    rw [List.map_cons]
    unfold eraseBuffered at ih ⊢
    rw [List.eraseP_cons, List.erase_cons]
    by_cases hjk : j = k
    · subst hjk
      simp [bufRec_channel, bufRec_messageNumber]
    · have hp : ((bufRec channel ev tm j).channel == channel &&
          (bufRec channel ev tm j).messageNumber == k) = false := by
        simp [bufRec_channel, bufRec_messageNumber, hjk]
      have hj : (j == k) = false := by simp [hjk]
      rw [hp, hj]
      simp only [cond_false, Bool.false_eq_true, if_false, List.map_cons, ih]

/-! ### Payload kind predicates -/

def MessagePayload.isLaunch : MessagePayload → Bool
  | .rocketLaunched _ _ _ => true
  | _ => false

def MessagePayload.isExplosion : MessagePayload → Bool
  | .rocketExploded _ => true
  | _ => false

theorem isLaunch_iff (p : MessagePayload) :
    p.isLaunch = true ↔ ∃ t s m, p = .rocketLaunched t s m := by
  cases p <;> simp [MessagePayload.isLaunch]

theorem isExplosion_iff (p : MessagePayload) :
    p.isExplosion = true ↔ ∃ s, p = .rocketExploded s := by
  cases p <;> simp [MessagePayload.isExplosion]

theorem status_eq_active_of_ne_exploded {r : Rocket}
    (h : r.status ≠ .EXPLODED) : r.status = .ACTIVE := by
  cases hs : r.status
  · rfl
  · exact absurd hs h

/-! ### Characterization of one application step on an existing rocket -/

theorem applyStateChange_some_cases (t : List Rocket) (r : Rocket)
    (im : IncomingMessage) (hfr : findRocket t im.channel = some r) :
    ∃ t' r', applyStateChange t (some r) im = .ok (t', r') ∧
      findRocket t' im.channel = some r' ∧
      ((t' = t ∧ r' = r ∧ (im.payload.isLaunch = true ∨ r.status = .EXPLODED)) ∨
        (r'.lastMessageNumber = im.messageNumber ∧
          r'.lastMessageTime = im.messageTime ∧
          (r'.status = .EXPLODED ↔
            (r.status = .EXPLODED ∨ im.payload.isExplosion = true)))) ∧
      (r.status = .EXPLODED → im.payload.isExplosion = false →
        t' = t ∧ r' = r) := by
  have hch : r.channel = im.channel := findRocket_eq_some_channel hfr
  obtain ⟨c, n, tme, p⟩ := im
  simp only at hfr hch ⊢
  cases p with
  | rocketLaunched ty s mi =>
    refine ⟨t, r, rfl, hfr, ?_, ?_⟩
    · exact .inl ⟨rfl, rfl, .inl rfl⟩
    · intro _ _; exact ⟨rfl, rfl⟩
  | rocketSpeedIncreased b =>
    by_cases hst : r.status = .EXPLODED
    · refine ⟨t, r, ?_, hfr, .inl ⟨rfl, rfl, .inr hst⟩, fun _ _ => ⟨rfl, rfl⟩⟩
      simp [applyStateChange, hst]
    · have hact := status_eq_active_of_ne_exploded hst
      refine ⟨updateRocket t c { r with
          currentSpeed := r.currentSpeed + b,
          lastMessageNumber := n, lastMessageTime := tme },
        { r with
          currentSpeed := r.currentSpeed + b,
          lastMessageNumber := n, lastMessageTime := tme }, ?_, ?_, ?_, ?_⟩
      · simp [applyStateChange, hact]
      · exact findRocket_updateRocket hfr hch
      · exact .inr ⟨rfl, rfl, by simp [hact, MessagePayload.isExplosion]⟩
      · intro hex; exact absurd hex hst
  | rocketSpeedDecreased b =>
    by_cases hst : r.status = .EXPLODED
    · refine ⟨t, r, ?_, hfr, .inl ⟨rfl, rfl, .inr hst⟩, fun _ _ => ⟨rfl, rfl⟩⟩
      simp [applyStateChange, hst]
    · have hact := status_eq_active_of_ne_exploded hst
      refine ⟨updateRocket t c { r with
          currentSpeed := max 0 (r.currentSpeed - b),
          lastMessageNumber := n, lastMessageTime := tme },
        { r with
          currentSpeed := max 0 (r.currentSpeed - b),
          lastMessageNumber := n, lastMessageTime := tme }, ?_, ?_, ?_, ?_⟩
      · simp [applyStateChange, hact]
      · exact findRocket_updateRocket hfr hch
      · exact .inr ⟨rfl, rfl, by simp [hact, MessagePayload.isExplosion]⟩
      · intro hex; exact absurd hex hst
  | rocketExploded reason =>
    refine ⟨updateRocket t c { r with
        status := .EXPLODED,
        explosionReason := some reason, currentSpeed := 0,
        lastMessageNumber := n, lastMessageTime := tme },
      { r with
        status := .EXPLODED, explosionReason := some reason,
        currentSpeed := 0, lastMessageNumber := n, lastMessageTime := tme },
      rfl, findRocket_updateRocket hfr hch,
      .inr ⟨rfl, rfl, by simp [MessagePayload.isExplosion]⟩, ?_⟩
    intro _ hex
    simp [MessagePayload.isExplosion] at hex
  | rocketMissionChanged nm =>
    by_cases hst : r.status = .EXPLODED
    · refine ⟨t, r, ?_, hfr, .inl ⟨rfl, rfl, .inr hst⟩, fun _ _ => ⟨rfl, rfl⟩⟩
      simp [applyStateChange, hst]
    · have hact := status_eq_active_of_ne_exploded hst
      refine ⟨updateRocket t c { r with
          mission := nm,
          lastMessageNumber := n, lastMessageTime := tme },
        { r with
          mission := nm, lastMessageNumber := n, lastMessageTime := tme },
        ?_, ?_, ?_, ?_⟩
      · simp [applyStateChange, hact]
      · exact findRocket_updateRocket hfr hch
      · exact .inr ⟨rfl, rfl, by simp [hact, MessagePayload.isExplosion]⟩
      · intro hex; exact absurd hex hst

/-! ### Invariants of the canonical in-order fold -/

theorem mkMsg_channel (channel : String) (ev : Nat → MessagePayload)
    (tm : Nat → Nat) (i : Nat) : (mkMsg channel ev tm i).channel = channel := rfl

theorem mkMsg_messageNumber (channel : String) (ev : Nat → MessagePayload)
    (tm : Nat → Nat) (i : Nat) : (mkMsg channel ev tm i).messageNumber = i := rfl

theorem mkMsg_messageTime (channel : String) (ev : Nat → MessagePayload)
    (tm : Nat → Nat) (i : Nat) : (mkMsg channel ev tm i).messageTime = tm i := rfl

theorem mkMsg_payload (channel : String) (ev : Nat → MessagePayload)
    (tm : Nat → Nat) (i : Nat) : (mkMsg channel ev tm i).payload = ev i := rfl

theorem foldApply_succ (channel : String) (ev : Nat → MessagePayload)
    (tm : Nat → Nat) (n : Nat) :
    foldApply channel ev tm (n + 1) =
      match applyStateChange (foldApply channel ev tm n)
          (findRocket (foldApply channel ev tm n) channel)
          (mkMsg channel ev tm (n + 1)) with
      | .ok (t', _) => t'
      | .error _ => foldApply channel ev tm n := rfl

/-- The rocket created by the in-order Create at sequence 1. -/
def launchRocket (channel : String) (ev : Nat → MessagePayload) (tm : Nat → Nat)
    (ty : String) (s : Int) (mi : String) : Rocket :=
  { channel := channel, type := ty, currentSpeed := s, mission := mi,
    status := .ACTIVE, explosionReason := none, lastMessageNumber := 1,
    lastMessageTime := tm 1 }

theorem foldApply_one (channel : String) (ev : Nat → MessagePayload)
    (tm : Nat → Nat) {ty : String} {s : Int} {mi : String}
    (hev : ev 1 = .rocketLaunched ty s mi) :
    foldApply channel ev tm 1 = [launchRocket channel ev tm ty s mi] := by
  rw [foldApply_succ]
  have h0 : foldApply channel ev tm 0 = [] := rfl
  rw [h0]
  have hfr0 : findRocket ([] : List Rocket) channel = none := rfl
  rw [hfr0]
  have hA : applyStateChange [] none (mkMsg channel ev tm 1) =
      .ok ([launchRocket channel ev tm ty s mi],
        launchRocket channel ev tm ty s mi) := by
    unfold applyStateChange
    simp [mkMsg, hev, launchRocket]
  rw [hA]

theorem foldApply_invariant (channel : String) (ev : Nat → MessagePayload)
    (tm : Nat → Nat) (HL : (ev 1).isLaunch = true)
    (HNL : ∀ i, 2 ≤ i → (ev i).isLaunch = false) :
    ∀ n, 1 ≤ n → ∃ r, findRocket (foldApply channel ev tm n) channel = some r ∧
      r.lastMessageNumber ≤ n ∧
      (r.status = .ACTIVE → r.lastMessageNumber = n) ∧
      (r.status = .EXPLODED → ∃ e, 1 ≤ e ∧ e ≤ n ∧ (ev e).isExplosion = true) := by
  intro n
  induction n with
  | zero => omega
  | succ n ih =>
    intro _
    by_cases hn : 1 ≤ n
    · obtain ⟨r, hfr, hle, hact, hexp⟩ := ih hn
      obtain ⟨t', r', hA, hfr', hdisj, _⟩ :=
        applyStateChange_some_cases (foldApply channel ev tm n) r
          (mkMsg channel ev tm (n + 1)) hfr
      simp only [mkMsg_channel, mkMsg_messageNumber, mkMsg_messageTime,
        mkMsg_payload] at hfr' hdisj
      have hfold : foldApply channel ev tm (n + 1) = t' := by
        rw [foldApply_succ, hfr, hA]
      refine ⟨r', by rw [hfold]; exact hfr', ?_, ?_, ?_⟩
      · rcases hdisj with ⟨_, hr, _⟩ | ⟨hln, _, _⟩
        · rw [hr]; omega
        · omega
      · intro hact'
        rcases hdisj with ⟨_, hr, hkind⟩ | ⟨hln, _, _⟩
        · rcases hkind with hk | hk
          · rw [HNL (n + 1) (by omega)] at hk
            exact absurd hk (by simp)
          · rw [hr] at hact'
            rw [hact'] at hk
            exact absurd hk (by simp)
        · exact hln
      · intro hexp'
        rcases hdisj with ⟨_, hr, _⟩ | ⟨_, _, hiff⟩
        · rw [hr] at hexp'
          obtain ⟨e, he1, he2, he3⟩ := hexp hexp'
          exact ⟨e, he1, by omega, he3⟩
        · rcases hiff.mp hexp' with hk | hk
          · obtain ⟨e, he1, he2, he3⟩ := hexp hk
            exact ⟨e, he1, by omega, he3⟩
          · exact ⟨n + 1, by omega, le_refl _, hk⟩
    · have hn0 : n = 0 := by omega
      subst hn0
      obtain ⟨ty, s, mi, hev⟩ := (isLaunch_iff (ev 1)).mp HL
      refine ⟨launchRocket channel ev tm ty s mi, ?_, le_refl _, fun _ => rfl,
        fun h => by simp [launchRocket] at h⟩
      rw [foldApply_one channel ev tm hev]
      simp [findRocket, launchRocket]

theorem foldApply_succ_of_exploded (channel : String) (ev : Nat → MessagePayload)
    (tm : Nat → Nat) (n : Nat) (r : Rocket)
    (hfr : findRocket (foldApply channel ev tm n) channel = some r)
    (hst : r.status = .EXPLODED)
    (hne : (ev (n + 1)).isExplosion = false) :
    foldApply channel ev tm (n + 1) = foldApply channel ev tm n := by
  obtain ⟨t', r', hA, _, _, habs⟩ :=
    applyStateChange_some_cases (foldApply channel ev tm n) r
      (mkMsg channel ev tm (n + 1)) hfr
  obtain ⟨ht, _⟩ := habs hst (by simpa [mkMsg_payload] using hne)
  rw [foldApply_succ, hfr, hA, ht]

theorem foldApply_freeze (channel : String) (ev : Nat → MessagePayload)
    (tm : Nat → Nat) (c c' : Nat) (r : Rocket)
    (hfr : findRocket (foldApply channel ev tm c) channel = some r)
    (hst : r.status = .EXPLODED) (hcc : c ≤ c')
    (hne : ∀ j, c < j → j ≤ c' → (ev j).isExplosion = false) :
    foldApply channel ev tm c' = foldApply channel ev tm c := by
  induction c', hcc using Nat.le_induction with
  | base => rfl
  | succ m hm ih =>
    have hfold : foldApply channel ev tm m = foldApply channel ev tm c :=
      ih (fun j h1 h2 => hne j h1 (by omega))
    have hfrm : findRocket (foldApply channel ev tm m) channel = some r := by
      rw [hfold]; exact hfr
    have hstep := foldApply_succ_of_exploded channel ev tm m r hfrm hst
      (hne (m + 1) (by omega) (by omega))
    rw [hstep, hfold]

/-! ### Unfolding equations for the drain loop -/

theorem processBufferedMessagesFuel_none {fuel : Nat} {st : DbState}
    {channel : String} {k : Nat}
    (h : findBuffered st.buffered channel k = none) :
    processBufferedMessagesFuel fuel st channel k = st := by
  cases fuel with
  | zero => rfl
  | succ fuel =>
    unfold processBufferedMessagesFuel
    rw [h]

theorem processBufferedMessages_none {st : DbState} {channel : String} {k : Nat}
    (h : findBuffered st.buffered channel k = none) :
    processBufferedMessages st channel k = st :=
  processBufferedMessagesFuel_none h

theorem length_pos_of_findBuffered_some {st : DbState} {channel : String}
    {k : Nat} {b : BufferedMessage}
    (h : findBuffered st.buffered channel k = some b) :
    st.buffered.length = (eraseBuffered st.buffered channel k).length + 1 := by
  have h' : st.buffered.find?
      (fun x => x.channel == channel && x.messageNumber == k) = some b := h
  have hmem : b ∈ st.buffered := List.mem_of_find?_eq_some h'
  have hp := List.find?_some h'
  have := List.length_eraseP_add_one (p := fun x =>
    x.channel == channel && x.messageNumber == k) hmem hp
  unfold eraseBuffered
  omega

theorem processBufferedMessages_orphan {st : DbState} {channel : String} {k : Nat}
    {b : BufferedMessage} (h : findBuffered st.buffered channel k = some b)
    (h2 : findRocket st.rockets channel = none) :
    processBufferedMessages st channel k =
      { st with buffered := eraseBuffered st.buffered channel k } := by
  unfold processBufferedMessages
  rw [length_pos_of_findBuffered_some h]
  simp only [processBufferedMessagesFuel]
  split
  · rename_i heq
    rw [h] at heq
    cases heq
  · rename_i heq
    rw [h] at heq
    cases heq
    split
    · rfl
    · rename_i heq2
      rw [h2] at heq2
      cases heq2

theorem processBufferedMessages_step {st : DbState} {channel : String} {k : Nat}
    {b : BufferedMessage} {rocket : Rocket} {t' : List Rocket} {r' : Rocket}
    (h : findBuffered st.buffered channel k = some b)
    (h2 : findRocket st.rockets channel = some rocket)
    (h3 : applyStateChange st.rockets (some rocket) (messageOfBuffered b) =
      .ok (t', r')) :
    processBufferedMessages st channel k =
      processBufferedMessages
        { rockets := t', messages := mkRecordOfBuffered b :: st.messages,
          buffered := eraseBuffered st.buffered channel k }
        channel (k + 1) := by
  conv_lhs =>
    unfold processBufferedMessages
    rw [length_pos_of_findBuffered_some h]
  conv_lhs => simp only [processBufferedMessagesFuel]
  split
  · rename_i heq
    rw [h] at heq
    cases heq
  · rename_i b' heq
    rw [h] at heq
    cases heq
    split
    · rename_i heq2
      rw [h2] at heq2
      cases heq2
    · rename_i rocket' heq2
      rw [h2] at heq2
      cases heq2
      split
      · rename_i heq3
        rw [h3] at heq3
        cases heq3
      · rename_i pair heq3
        rw [h3] at heq3
        cases heq3
        rfl

theorem processBufferedMessages_applyError {st : DbState} {channel : String}
    {k : Nat} {b : BufferedMessage} {rocket : Rocket}
    (h : findBuffered st.buffered channel k = some b)
    (h2 : findRocket st.rockets channel = some rocket)
    (h3 : applyStateChange st.rockets (some rocket) (messageOfBuffered b) =
      .error ()) :
    processBufferedMessages st channel k = st := by
  unfold processBufferedMessages
  rw [length_pos_of_findBuffered_some h]
  simp only [processBufferedMessagesFuel]
  split
  · rename_i heq
    simp [h] at heq
  · rename_i b' heq
    rw [h] at heq
    cases heq
    split
    · rename_i heq2
      simp [h2] at heq2
    · rename_i rocket' heq2
      rw [h2] at heq2
      cases heq2
      split
      · rfl
      · rename_i pair heq3
        simp [h3] at heq3

/-! ### The drain loop applies exactly the contiguous buffered run -/

theorem drain_spec (channel : String) (ev : Nat → MessagePayload)
    (tm : Nat → Nat) (HL : (ev 1).isLaunch = true)
    (HNL : ∀ i, 2 ≤ i → (ev i).isLaunch = false) :
    ∀ (bn : List Nat) (st : DbState) (k : Nat), 2 ≤ k → bn.Nodup →
    st.rockets = foldApply channel ev tm (k - 1) →
    (∀ j, (findMessage st.messages channel j).isSome ↔ (1 ≤ j ∧ j ≤ k - 1)) →
    st.buffered = bn.map (bufRec channel ev tm) →
    ∃ bn' : List Nat, bn'.Nodup ∧
      (∀ j, j ∈ bn' ↔ (j ∈ bn ∧ ¬(k ≤ j ∧ j ≤ chainEnd bn k))) ∧
      (processBufferedMessages st channel k).rockets =
        foldApply channel ev tm (chainEnd bn k) ∧
      (∀ j, (findMessage (processBufferedMessages st channel k).messages
        channel j).isSome ↔ (1 ≤ j ∧ j ≤ chainEnd bn k)) ∧
      (processBufferedMessages st channel k).buffered =
        bn'.map (bufRec channel ev tm) := by
  intro bn st k hk hnd hrock hmsgs hbuf
  by_cases hmem : k ∈ bn
  · have hfb : findBuffered st.buffered channel k =
        some (bufRec channel ev tm k) := by
      rw [hbuf, findBuffered_map_bufRec, if_pos hmem]
    obtain ⟨r, hfr, -, -, -⟩ :=
      foldApply_invariant channel ev tm HL HNL (k - 1) (by omega)
    have hfrst : findRocket st.rockets channel = some r := by
      rw [hrock]; exact hfr
    obtain ⟨t', r', hA, hfr', -, -⟩ :=
      applyStateChange_some_cases (foldApply channel ev tm (k - 1)) r
        (mkMsg channel ev tm k) hfr
    have hk1 : k - 1 + 1 = k := by omega
    have hfoldk : foldApply channel ev tm k = t' := by
      have hs := foldApply_succ channel ev tm (k - 1)
      rw [hk1] at hs
      rw [hs, hfr, hA]
    have hA' : applyStateChange st.rockets (some r)
        (messageOfBuffered (bufRec channel ev tm k)) = .ok (t', r') := by
      rw [messageOfBuffered_bufRec, hrock]
      exact hA
    rw [processBufferedMessages_step hfb hfrst hA']
    have hbuf2 : eraseBuffered st.buffered channel k =
        (bn.erase k).map (bufRec channel ev tm) := by
      rw [hbuf, eraseBuffered_map_bufRec]
    have hmsgs2 : ∀ j, (findMessage
        (mkRecordOfBuffered (bufRec channel ev tm k) :: st.messages)
        channel j).isSome ↔ (1 ≤ j ∧ j ≤ (k + 1) - 1) := by
      intro j
      rw [findMessage_cons]
      by_cases hjk : j = k
      · subst hjk
        rw [if_pos ⟨rfl, rfl⟩]
        simp
        omega
      · have : ¬((mkRecordOfBuffered (bufRec channel ev tm k)).channel = channel ∧
            (mkRecordOfBuffered (bufRec channel ev tm k)).messageNumber = j) := by
          intro hcontra
          exact hjk (hcontra.2.symm)
        rw [if_neg this, hmsgs j]
        omega
    obtain ⟨bn'', hnd'', hmem'', hrock'', hmsgs'', hbuf''⟩ :=
      drain_spec channel ev tm HL HNL (bn.erase k)
        { rockets := t', messages := mkRecordOfBuffered (bufRec channel ev tm k) :: st.messages,
          buffered := eraseBuffered st.buffered channel k }
        (k + 1) (by omega) (hnd.erase k)
        (by simpa using hfoldk.symm) hmsgs2 hbuf2
    have hchain : chainEnd bn k = chainEnd (bn.erase k) (k + 1) :=
      chainEnd_cons_of_mem bn k hmem
    have hmge : k ≤ chainEnd (bn.erase k) (k + 1) := by
      have := chainEnd_ge (bn.erase k) (k + 1)
      omega
    refine ⟨bn'', hnd'', ?_, by rw [hchain]; exact hrock'',
      by rw [hchain]; exact hmsgs'', hbuf''⟩
    intro j
    rw [hmem'' j, hnd.mem_erase_iff, hchain]
    constructor
    · rintro ⟨⟨hne, hj⟩, hnr⟩
      refine ⟨hj, ?_⟩
      intro hcon
      rcases hcon with ⟨hc1, hc2⟩
      have : j ≠ k := hne
      exact hnr ⟨by omega, hc2⟩
    · rintro ⟨hj, hnr⟩
      have hne : j ≠ k := by
        intro h
        subst h
        exact hnr ⟨le_refl _, hmge⟩
      exact ⟨⟨hne, hj⟩, fun hcon => hnr ⟨by omega, hcon.2⟩⟩
  · have hfb : findBuffered st.buffered channel k = none := by
      rw [hbuf, findBuffered_map_bufRec, if_neg hmem]
    rw [processBufferedMessages_none hfb, chainEnd_of_not_mem bn k hmem]
    refine ⟨bn, hnd, ?_, hrock, hmsgs, hbuf⟩
    intro j
    constructor
    · intro hj
      exact ⟨hj, by omega⟩
    · intro hj
      exact hj.1
termination_by bn _ _ => bn.length
decreasing_by
  have h1 := List.length_erase_add_one hmem
  omega

/-! ### Branch equations for `processMessage` -/

theorem processMessage_dup {st : DbState} {im : IncomingMessage}
    (h1 : (findMessage st.messages im.channel im.messageNumber).isSome) :
    processMessage st im = .ok (st, .duplicate) := by
  unfold processMessage
  rw [if_pos h1]

theorem processMessage_bufferedDup {st : DbState} {im : IncomingMessage}
    (h1 : findMessage st.messages im.channel im.messageNumber = none)
    (h2 : (findBuffered st.buffered im.channel im.messageNumber).isSome) :
    processMessage st im = .ok (st, .bufferedDuplicate) := by
  unfold processMessage
  rw [h1]
  simp only [Option.isSome_none, Bool.false_eq_true, if_false]
  rw [if_pos h2]

theorem processMessage_stale {st : DbState} {im : IncomingMessage} {rocket : Rocket}
    (h1 : findMessage st.messages im.channel im.messageNumber = none)
    (h2 : findBuffered st.buffered im.channel im.messageNumber = none)
    (h3 : findRocket st.rockets im.channel = some rocket)
    (h4 : im.messageNumber < rocket.lastMessageNumber) :
    processMessage st im =
      .ok ({ st with messages := mkMessageRecord im :: st.messages },
        .outOfOrder) := by
  unfold processMessage
  rw [h1, h2]
  simp only [Option.isSome_none, Bool.false_eq_true, if_false]
  rw [h3]
  simp only [if_pos h4]

theorem processMessage_future {st : DbState} {im : IncomingMessage} {rocket : Rocket}
    (h1 : findMessage st.messages im.channel im.messageNumber = none)
    (h2 : findBuffered st.buffered im.channel im.messageNumber = none)
    (h3 : findRocket st.rockets im.channel = some rocket)
    (h4 : ¬(im.messageNumber < rocket.lastMessageNumber))
    (h5 : rocket.lastMessageNumber + 1 < im.messageNumber) :
    processMessage st im =
      .ok ({ st with buffered := mkBufferedMessage im :: st.buffered },
        .buffered) := by
  unfold processMessage
  rw [h1, h2]
  simp only [Option.isSome_none, Bool.false_eq_true, if_false]
  rw [h3]
  simp only [if_neg h4, if_pos h5]

theorem processMessage_live {st : DbState} {im : IncomingMessage} {rocket : Rocket}
    (h1 : findMessage st.messages im.channel im.messageNumber = none)
    (h2 : findBuffered st.buffered im.channel im.messageNumber = none)
    (h3 : findRocket st.rockets im.channel = some rocket)
    (h4 : ¬(im.messageNumber < rocket.lastMessageNumber))
    (h5 : ¬(rocket.lastMessageNumber + 1 < im.messageNumber)) :
    processMessage st im = applyAndFinish st (some rocket) im := by
  unfold processMessage
  rw [h1, h2]
  simp only [Option.isSome_none, Bool.false_eq_true, if_false]
  rw [h3]
  simp only [if_neg h4, if_neg h5]

theorem processMessage_create {st : DbState} {im : IncomingMessage}
    (h1 : findMessage st.messages im.channel im.messageNumber = none)
    (h2 : findBuffered st.buffered im.channel im.messageNumber = none)
    (h3 : findRocket st.rockets im.channel = none) :
    processMessage st im = applyAndFinish st none im := by
  unfold processMessage
  rw [h1, h2]
  simp only [Option.isSome_none, Bool.false_eq_true, if_false]
  rw [h3]

theorem applyAndFinish_ok {st : DbState} {rocket : Option Rocket}
    {im : IncomingMessage} {t' : List Rocket} {r' : Rocket}
    (h : applyStateChange st.rockets rocket im = .ok (t', r')) :
    applyAndFinish st rocket im =
      .ok (processBufferedMessages
        { rockets := t', messages := mkMessageRecord im :: st.messages,
          buffered := st.buffered }
        im.channel (im.messageNumber + 1), .processed) := by
  unfold applyAndFinish
  rw [h]

theorem applyAndFinish_error {st : DbState} {rocket : Option Rocket}
    {im : IncomingMessage} (h : applyStateChange st.rockets rocket im = .error ()) :
    applyAndFinish st rocket im = .error () := by
  unfold applyAndFinish
  rw [h]

/-! ### The reachable-state invariant of a run submitting each sequence number
at most once, Create first -/

def RunInv (channel : String) (ev : Nat → MessagePayload) (tm : Nat → Nat)
    (P : Nat → Prop) (st : DbState) : Prop :=
  ∃ (a c : Nat) (bn : List Nat), 1 ≤ a ∧ a ≤ c ∧
    (∀ j, (findMessage st.messages channel j).isSome ↔ (1 ≤ j ∧ j ≤ a)) ∧
    bn.Nodup ∧
    st.buffered = bn.map (bufRec channel ev tm) ∧
    (∀ j, j ∈ bn → a < j) ∧
    st.rockets = foldApply channel ev tm c ∧
    (∀ j, P j ↔ ((1 ≤ j ∧ j ≤ a) ∨ j ∈ bn)) ∧
    (∀ j, a < j → j ≤ c → j ∈ bn) ∧
    (c + 1) ∉ bn ∧
    (∀ r, findRocket st.rockets channel = some r → r.lastMessageNumber ≤ a)

theorem runInv_congr {channel : String} {ev : Nat → MessagePayload}
    {tm : Nat → Nat} {P Q : Nat → Prop} {st : DbState}
    (hPQ : ∀ j, P j ↔ Q j) (h : RunInv channel ev tm P st) :
    RunInv channel ev tm Q st := by
  obtain ⟨a, c, bn, h1, h2, h3, h4, h5, h6, h7, h8, h9, h10, h11⟩ := h
  exact ⟨a, c, bn, h1, h2, h3, h4, h5, h6, h7,
    fun j => (hPQ j).symm.trans (h8 j), h9, h10, h11⟩

theorem runInv_base (channel : String) (ev : Nat → MessagePayload)
    (tm : Nat → Nat) {ty : String} {s : Int} {mi : String}
    (hev : ev 1 = .rocketLaunched ty s mi) :
    RunInv channel ev tm (fun j => j = 1)
      (submitMessage emptyDb (mkMsg channel ev tm 1)) := by
  have hA : applyStateChange emptyDb.rockets none (mkMsg channel ev tm 1) =
      .ok ([launchRocket channel ev tm ty s mi],
        launchRocket channel ev tm ty s mi) := by
    unfold applyStateChange
    simp [mkMsg, hev, launchRocket, emptyDb]
  have hsub : submitMessage emptyDb (mkMsg channel ev tm 1) =
      { rockets := [launchRocket channel ev tm ty s mi],
        messages := [mkMessageRecord (mkMsg channel ev tm 1)],
        buffered := [] } := by
    unfold submitMessage
    rw [@processMessage_create emptyDb (mkMsg channel ev tm 1) rfl rfl rfl,
      applyAndFinish_ok hA]
    rw [@processBufferedMessages_none
      { rockets := [launchRocket channel ev tm ty s mi],
        messages := mkMessageRecord (mkMsg channel ev tm 1) :: emptyDb.messages,
        buffered := emptyDb.buffered } (mkMsg channel ev tm 1).channel
      ((mkMsg channel ev tm 1).messageNumber + 1) rfl]
    rfl
  rw [hsub]
  refine ⟨1, 1, [], le_refl 1, le_refl 1, ?_, List.nodup_nil, rfl, ?_, ?_, ?_, ?_,
    ?_, ?_⟩
  · intro j
    rw [findMessage_cons]
    by_cases hj : j = 1
    · subst hj
      rw [if_pos ⟨rfl, rfl⟩]
      simp
    · have : ¬((mkMessageRecord (mkMsg channel ev tm 1)).channel = channel ∧
          (mkMessageRecord (mkMsg channel ev tm 1)).messageNumber = j) := by
        intro hcontra
        exact hj (hcontra.2.symm)
      rw [if_neg this]
      simp [findMessage]
      omega
  · intro j hj
    cases hj
  · exact (foldApply_one channel ev tm hev).symm
  · intro j
    constructor
    · intro hj
      exact .inl ⟨by omega, by omega⟩
    · rintro (⟨hj1, hj2⟩ | hj)
      · omega
      · cases hj
  · intro j hj1 hj2
    omega
  · intro h
    cases h
  · intro r hr
    have : findRocket [launchRocket channel ev tm ty s mi] channel =
        some (launchRocket channel ev tm ty s mi) := by
      simp [findRocket, launchRocket]
    rw [this] at hr
    cases hr
    exact le_refl 1

theorem runInv_step (channel : String) (ev : Nat → MessagePayload)
    (tm : Nat → Nat) (HL : (ev 1).isLaunch = true)
    (HNL : ∀ i, 2 ≤ i → (ev i).isLaunch = false)
    (HE : ∀ i j, (ev i).isExplosion = true → (ev j).isExplosion = true → i = j)
    (P : Nat → Prop) (st : DbState) (n : Nat) (hn : 2 ≤ n) (hfresh : ¬P n)
    (hinv : RunInv channel ev tm P st) :
    RunInv channel ev tm (fun j => j = n ∨ P j)
      (submitMessage st (mkMsg channel ev tm n)) := by
  obtain ⟨a, c, bn, ha1, hac, hmsgs, hnd, hbuf, hbngt, hrock, hP, hfill, hcnot,
    hlast⟩ := hinv
  have hnotSa : ¬(1 ≤ n ∧ n ≤ a) := fun h => hfresh ((hP n).mpr (.inl h))
  have hna : a < n := by omega
  have hnbn : n ∉ bn := fun h => hfresh ((hP n).mpr (.inr h))
  have hdup1 : findMessage st.messages channel n = none := by
    cases hfm : findMessage st.messages channel n with
    | none => rfl
    | some m =>
      have hs : (findMessage st.messages channel n).isSome := by
        rw [hfm]; rfl
      have := (hmsgs n).mp hs
      omega
  have hdup2 : findBuffered st.buffered channel n = none := by
    rw [hbuf, findBuffered_map_bufRec, if_neg hnbn]
  obtain ⟨r, hfr, hrle, hract, hrexp⟩ :=
    foldApply_invariant channel ev tm HL HNL c (by omega)
  have hfrst : findRocket st.rockets channel = some r := by rw [hrock]; exact hfr
  have hrla : r.lastMessageNumber ≤ a := hlast r hfrst
  have hnotstale : ¬(n < r.lastMessageNumber) := by omega
  have hngtc : c < n → True := fun _ => trivial
  by_cases hlive : r.lastMessageNumber + 1 < n
  · -- future message: buffered
    unfold submitMessage
    rw [processMessage_future hdup1 hdup2 hfrst hnotstale hlive]
    have hnc2 : c < n := by
      by_contra hle
      have : n ∈ bn := hfill n hna (by omega)
      exact hnbn this
    have hbuf0 : (mkBufferedMessage (mkMsg channel ev tm n) :: st.buffered) =
        (n :: bn).map (bufRec channel ev tm) := by
      rw [List.map_cons, hbuf]
      rfl
    have hnd0 : (n :: bn).Nodup := List.nodup_cons.mpr ⟨hnbn, hnd⟩
    by_cases hnc : n = c + 1
    · -- the gap closes the contiguous prefix of the submitted set but the
      -- entity is terminal (its last-applied lags behind), so the canonical
      -- fold is frozen across the extension
      have hterm : r.status = .EXPLODED := by
        cases hs : r.status
        · have := hract hs
          omega
        · rfl
      obtain ⟨e, he1, he2, he3⟩ := hrexp hterm
      have hnoexp : ∀ j, c < j → (ev j).isExplosion = false := by
        intro j hj
        cases hB : (ev j).isExplosion
        · rfl
        · have := HE j e hB he3
          omega
      have hge : c + 1 ≤ chainEnd bn (c + 2) := by
        have := chainEnd_ge bn (c + 2)
        omega
      have hfreeze : foldApply channel ev tm (chainEnd bn (c + 2)) =
          foldApply channel ev tm c :=
        foldApply_freeze channel ev tm c (chainEnd bn (c + 2)) r hfr hterm
          (by omega) (fun j h1 _ => hnoexp j h1)
      refine ⟨a, chainEnd bn (c + 2), n :: bn, ha1, by omega, hmsgs, hnd0,
        hbuf0, ?_, ?_, ?_, ?_, ?_, ?_⟩
      · intro j hj
        rcases List.mem_cons.mp hj with hj | hj
        · omega
        · exact hbngt j hj
      · show st.rockets = foldApply channel ev tm (chainEnd bn (c + 2))
        rw [hfreeze]
        exact hrock
      · intro j
        constructor
        · rintro (hj | hj)
          · subst hj
            exact .inr (List.mem_cons_self _ _)
          · rcases (hP j).mp hj with hj' | hj'
            · exact .inl hj'
            · exact .inr (List.mem_cons_of_mem _ hj')
        · rintro (hj | hj)
          · exact .inr ((hP j).mpr (.inl hj))
          · rcases List.mem_cons.mp hj with hj' | hj'
            · exact .inl hj'
            · exact .inr ((hP j).mpr (.inr hj'))
      · intro j hj1 hj2
        by_cases hjc : j ≤ c
        · exact List.mem_cons_of_mem _ (hfill j hj1 hjc)
        · by_cases hjc1 : j = c + 1
          · rw [hjc1, ← hnc]
            exact List.mem_cons_self _ _
          · have : j ∈ bn := chainEnd_mem bn (c + 2) (by omega) j (by omega) hj2
            exact List.mem_cons_of_mem _ this
      · intro hmem
        rcases List.mem_cons.mp hmem with hj | hj
        · omega
        · exact chainEnd_succ_not_mem bn (c + 2) (by omega) hnd hj
      · intro r0 hr0
        rw [hfrst] at hr0
        cases hr0
        exact hrla
    · -- the new number leaves a gap: the contiguous prefix is unchanged
      refine ⟨a, c, n :: bn, ha1, hac, hmsgs, hnd0, hbuf0, ?_, hrock, ?_, ?_,
        ?_, ?_⟩
      · intro j hj
        rcases List.mem_cons.mp hj with hj | hj
        · omega
        · exact hbngt j hj
      · intro j
        constructor
        · rintro (hj | hj)
          · subst hj
            exact .inr (List.mem_cons_self _ _)
          · rcases (hP j).mp hj with hj' | hj'
            · exact .inl hj'
            · exact .inr (List.mem_cons_of_mem _ hj')
        · rintro (hj | hj)
          · exact .inr ((hP j).mpr (.inl hj))
          · rcases List.mem_cons.mp hj with hj' | hj'
            · exact .inl hj'
            · exact .inr ((hP j).mpr (.inr hj'))
      · intro j hj1 hj2
        exact List.mem_cons_of_mem _ (hfill j hj1 hj2)
      · intro hmem
        rcases List.mem_cons.mp hmem with hj | hj
        · exact hnc hj.symm
        · exact hcnot hj
      · intro r0 hr0
        rw [hfrst] at hr0
        cases hr0
        exact hrla
  · -- in-order message: n = last-applied + 1; apply and drain
    have hneq : n = r.lastMessageNumber + 1 := by omega
    have haL : a = r.lastMessageNumber := by omega
    have hacc : a = c := by
      by_contra hne
      have hmem : a + 1 ∈ bn := hfill (a + 1) (by omega) (by omega)
      have : a + 1 = n := by omega
      rw [this] at hmem
      exact hnbn hmem
    have hnc : n = c + 1 := by omega
    obtain ⟨t', r', hA, hfr', hdisj, habs⟩ :=
      applyStateChange_some_cases (foldApply channel ev tm c) r
        (mkMsg channel ev tm n) hfr
    have hfoldn : foldApply channel ev tm (c + 1) = t' := by
      have hs := foldApply_succ channel ev tm c
      rw [hfr, ← hnc, hA] at hs
      rw [← hnc]
      exact hs
    have hAst : applyStateChange st.rockets (some r) (mkMsg channel ev tm n) =
        .ok (t', r') := by
      rw [hrock]
      exact hA
    unfold submitMessage
    rw [processMessage_live hdup1 hdup2 hfrst hnotstale hlive,
      applyAndFinish_ok hAst]
    show RunInv channel ev tm (fun j => j = n ∨ P j)
      (processBufferedMessages
        { rockets := t',
          messages := mkMessageRecord (mkMsg channel ev tm n) :: st.messages,
          buffered := st.buffered }
        channel (n + 1))
    have hmsgs2 : ∀ j, (findMessage
        (mkMessageRecord (mkMsg channel ev tm n) :: st.messages)
        channel j).isSome ↔ (1 ≤ j ∧ j ≤ (n + 1) - 1) := by
      intro j
      rw [findMessage_cons]
      by_cases hjn : j = n
      · subst hjn
        rw [if_pos ⟨rfl, rfl⟩]
        simp
        omega
      · have hne : ¬((mkMessageRecord (mkMsg channel ev tm n)).channel = channel ∧
            (mkMessageRecord (mkMsg channel ev tm n)).messageNumber = j) := by
          intro hcontra
          exact hjn (hcontra.2.symm)
        rw [if_neg hne, hmsgs j]
        omega
    obtain ⟨bn', hnd', hmem', hrock', hmsgs', hbuf'⟩ :=
      drain_spec channel ev tm HL HNL bn
        { rockets := t',
          messages := mkMessageRecord (mkMsg channel ev tm n) :: st.messages,
          buffered := st.buffered }
        (n + 1) (by omega) hnd
        (by show t' = _; rw [← hfoldn]; congr 1; omega) hmsgs2 hbuf
    have hm1 : n ≤ chainEnd bn (n + 1) := by
      have := chainEnd_ge bn (n + 1)
      omega
    refine ⟨chainEnd bn (n + 1), chainEnd bn (n + 1), bn', by omega, le_refl _,
      hmsgs', hnd', hbuf', ?_, hrock', ?_, ?_, ?_, ?_⟩
    · intro j hj
      obtain ⟨hjbn, hjr⟩ := (hmem' j).mp hj
      have hja : a < j := hbngt j hjbn
      have hjn : j ≠ n := fun h => hnbn (h ▸ hjbn)
      have hjn1 : n + 1 ≤ j := by omega
      omega
    · intro j
      constructor
      · rintro (hj | hj)
        · exact .inl ⟨by omega, by omega⟩
        · rcases (hP j).mp hj with hj' | hj'
          · exact .inl ⟨by omega, by omega⟩
          · by_cases hjr : n + 1 ≤ j ∧ j ≤ chainEnd bn (n + 1)
            · have := hbngt j hj'
              exact .inl ⟨by omega, hjr.2⟩
            · exact .inr ((hmem' j).mpr ⟨hj', hjr⟩)
      · rintro (⟨hj1, hj2⟩ | hj)
        · by_cases hjc : j ≤ c
          · by_cases hja : j ≤ a
            · exact .inr ((hP j).mpr (.inl ⟨hj1, hja⟩))
            · exact .inr ((hP j).mpr (.inr (hfill j (by omega) hjc)))
          · by_cases hjn : j = n
            · exact .inl hjn
            · have : j ∈ bn :=
                chainEnd_mem bn (n + 1) (by omega) j (by omega) hj2
              exact .inr ((hP j).mpr (.inr this))
        · have : j ∈ bn := ((hmem' j).mp hj).1
          exact .inr ((hP j).mpr (.inr this))
    · intro j hj1 hj2
      omega
    · intro hmem
      have : chainEnd bn (n + 1) + 1 ∈ bn := ((hmem' _).mp hmem).1
      exact chainEnd_succ_not_mem bn (n + 1) (by omega) hnd this
    · intro r0 hr0
      rw [hrock'] at hr0
      obtain ⟨r1, hr1, hr1le, -, -⟩ :=
        foldApply_invariant channel ev tm HL HNL (chainEnd bn (n + 1))
          (by omega)
      rw [hr1] at hr0
      cases hr0
      exact hr1le

theorem runInv_run (channel : String) (ev : Nat → MessagePayload)
    (tm : Nat → Nat) (HL : (ev 1).isLaunch = true)
    (HNL : ∀ i, 2 ≤ i → (ev i).isLaunch = false)
    (HE : ∀ i j, (ev i).isExplosion = true → (ev j).isExplosion = true → i = j) :
    ∀ (todo : List Nat) (P : Nat → Prop) (st : DbState),
    RunInv channel ev tm P st → (∀ i ∈ todo, 2 ≤ i) → todo.Nodup →
    (∀ i ∈ todo, ¬P i) →
    RunInv channel ev tm (fun j => j ∈ todo ∨ P j)
      (submitAll st (todo.map (mkMsg channel ev tm))) := by
  intro todo
  induction todo with
  | nil =>
    intro P st hinv _ _ _
    exact runInv_congr (fun j => by simp) hinv
  | cons i rest ih =>
    intro P st hinv hge hnd hfresh
    have hstep := runInv_step channel ev tm HL HNL HE P st i
      (hge i (List.mem_cons_self _ _)) (hfresh i (List.mem_cons_self _ _)) hinv
    have hrec := ih (fun j => j = i ∨ P j)
      (submitMessage st (mkMsg channel ev tm i)) hstep
      (fun j hj => hge j (List.mem_cons_of_mem _ hj)) hnd.of_cons
      (fun j hj hPij => by
        rcases hPij with h | h
        · subst h
          exact (List.nodup_cons.mp hnd).1 hj
        · exact hfresh j (List.mem_cons_of_mem _ hj) h)
    rw [List.map_cons]
    show RunInv channel ev tm _
      (submitAll (submitMessage st (mkMsg channel ev tm i))
        (rest.map (mkMsg channel ev tm)))
    refine runInv_congr (fun j => ?_) hrec
    rw [List.mem_cons]
    tauto

/-- Under the corrected preconditions (the Create has sequence 1 and is
submitted first, no other event is a Create, at most one event is a
Terminate), any submission order of 2..N drives the store to the canonical
in-order fold. -/
theorem run_canonical (channel : String) (ev : Nat → MessagePayload)
    (tm : Nat → Nat) (N : Nat) (HL : (ev 1).isLaunch = true)
    (HNL : ∀ i, 2 ≤ i → (ev i).isLaunch = false)
    (HE : ∀ i j, (ev i).isExplosion = true → (ev j).isExplosion = true → i = j)
    (hN : 1 ≤ N) (perm : List Nat)
    (hperm : perm.Perm (List.range' 2 (N - 1))) :
    (submitAll emptyDb ((1 :: perm).map (mkMsg channel ev tm))).rockets =
      foldApply channel ev tm N := by
  obtain ⟨ty, s, mi, hev⟩ := (isLaunch_iff (ev 1)).mp HL
  have hbase := runInv_base channel ev tm hev
  have hmem : ∀ i, i ∈ perm ↔ (2 ≤ i ∧ i ≤ N) := by
    intro i
    rw [hperm.mem_iff, List.mem_range'_1]
    omega
  have hnd : perm.Nodup := hperm.nodup_iff.mpr (List.nodup_range' 2 (N - 1) 1
    Nat.one_pos)
  have hrun := runInv_run channel ev tm HL HNL HE perm (fun j => j = 1)
    (submitMessage emptyDb (mkMsg channel ev tm 1)) hbase
    (fun i hi => ((hmem i).mp hi).1) hnd
    (fun i hi h => by
      have := (hmem i).mp hi
      omega)
  rw [List.map_cons]
  show (submitAll (submitMessage emptyDb (mkMsg channel ev tm 1))
    (perm.map (mkMsg channel ev tm))).rockets = _
  obtain ⟨a, c, bn, ha1, hac, hmsgs, hnd', hbuf, hbngt, hrock, hP, hfill,
    hcnot, hlast⟩ := hrun
  have hc1 : ¬(c + 1 ∈ perm ∨ c + 1 = 1) := by
    intro h
    rcases (hP (c + 1)).mp h with h' | h'
    · omega
    · exact hcnot h'
  have hcgeN : N ≤ c := by
    by_contra hlt
    exact hc1 (.inl ((hmem (c + 1)).mpr (by omega)))
  have hcP : c ∈ perm ∨ c = 1 := by
    apply (hP c).mpr
    by_cases hca : c ≤ a
    · exact .inl ⟨by omega, hca⟩
    · exact .inr (hfill c (by omega) (le_refl c))
  have hcleN : c ≤ N := by
    rcases hcP with h | h
    · exact ((hmem c).mp h).2
    · omega
  have hcN : c = N := by omega
  rw [hrock, hcN]

/-! ### Further lemmas for the individual claims -/

theorem applyStateChange_noop_terminal (t : List Rocket) (r : Rocket)
    (im : IncomingMessage) (hst : r.status = .EXPLODED)
    (h1 : im.payload.isLaunch = false) (h2 : im.payload.isExplosion = false) :
    applyStateChange t (some r) im = .ok (t, r) := by
  obtain ⟨c, n, tme, p⟩ := im
  cases p with
  | rocketLaunched ty s mi => simp [MessagePayload.isLaunch] at h1
  | rocketSpeedIncreased b => simp [applyStateChange, hst]
  | rocketSpeedDecreased b => simp [applyStateChange, hst]
  | rocketExploded reason => simp [MessagePayload.isExplosion] at h2
  | rocketMissionChanged nm => simp [applyStateChange, hst]

theorem applyStateChange_launch_conflict (t : List Rocket) (r : Rocket)
    (im : IncomingMessage) {ty : String} {s : Int} {mi : String}
    (hp : im.payload = .rocketLaunched ty s mi) :
    applyStateChange t (some r) im = .ok (t, r) := by
  obtain ⟨c, n, tme, p⟩ := im
  simp only at hp
  subst hp
  rfl

theorem findMessage_isSome_cons {m : MessageRecord} {messages : List MessageRecord}
    {channel : String} {n : Nat}
    (h : (findMessage messages channel n).isSome) :
    (findMessage (m :: messages) channel n).isSome := by
  rw [findMessage_cons]
  split
  · rfl
  · exact h

theorem processBufferedMessages_messages_mono_aux :
    ∀ (L : Nat) (st : DbState), st.buffered.length ≤ L →
    ∀ (channel : String) (k : Nat) (ch' : String) (j : Nat),
      (findMessage st.messages ch' j).isSome →
      (findMessage (processBufferedMessages st channel k).messages ch' j).isSome := by
  intro L
  induction L with
  | zero =>
    intro st hlen channel k ch' j hj
    have hemp : st.buffered = [] := List.length_eq_zero.mp (by omega)
    have hfb : findBuffered st.buffered channel k = none := by
      rw [hemp]; rfl
    rw [processBufferedMessages_none hfb]
    exact hj
  | succ L ih =>
    intro st hlen channel k ch' j hj
    cases hb : findBuffered st.buffered channel k with
    | none =>
      rw [processBufferedMessages_none hb]
      exact hj
    | some b =>
      cases hr : findRocket st.rockets channel with
      | none =>
        rw [processBufferedMessages_orphan hb hr]
        exact hj
      | some rocket =>
        cases hA : applyStateChange st.rockets (some rocket)
            (messageOfBuffered b) with
        | error e =>
          cases e
          rw [processBufferedMessages_applyError hb hr hA]
          exact hj
        | ok pair =>
          obtain ⟨t', r'⟩ := pair
          rw [processBufferedMessages_step hb hr hA]
          have hlt := length_eraseBuffered_lt hb
          refine ih _ ?_ channel (k + 1) ch' j (findMessage_isSome_cons hj)
          show (eraseBuffered st.buffered channel k).length ≤ L
          omega

theorem processBufferedMessages_messages_mono (st : DbState) (channel : String)
    (k : Nat) (ch' : String) (j : Nat)
    (hj : (findMessage st.messages ch' j).isSome) :
    (findMessage (processBufferedMessages st channel k).messages ch' j).isSome :=
  processBufferedMessages_messages_mono_aux st.buffered.length st (le_refl _)
    channel k ch' j hj

/-! ### Concrete fixtures used by counterexamples and witnesses -/

def exCh : String := "ch-1"

def exEv : Nat → MessagePayload := fun i =>
  if i = 1 then .rocketLaunched "Falcon-9" 500 "ARTEMIS"
  else .rocketSpeedIncreased 1000

def exTm : Nat → Nat := fun i => i

theorem exEv_launch : (exEv 1).isLaunch = true := rfl

theorem exEv_no_other_launch : ∀ i, 2 ≤ i → (exEv i).isLaunch = false := by
  intro i hi
  unfold exEv
  rw [if_neg (by omega)]
  rfl

theorem exEv_no_explosion : ∀ i, (exEv i).isExplosion = false := by
  intro i
  unfold exEv
  by_cases hi : i = 1
  · rw [if_pos hi]; rfl
  · rw [if_neg hi]; rfl

/-- Claim C1, counterexample.  As stated the claim is false: with the Create
event at sequence 1 and a SpeedIncrease at sequence 2, submitting the
permutation [2, 1] makes the SpeedIncrease hit a channel with no rocket, so
`applyStateChange` throws `Rocket not found`, the event is lost (neither
audited nor buffered), and the final entity differs from the in-order run
(speed 500 and last-applied 1 instead of speed 1500 and last-applied 2). -/
theorem C1_counterexample :
    findRocket (submitAll emptyDb ([2, 1].map (mkMsg exCh exEv exTm))).rockets
      exCh ≠
    findRocket (submitAll emptyDb ([1, 2].map (mkMsg exCh exEv exTm))).rockets
      exCh := by
  decide

/-- Claim C1 (amended): reordering invariance holds provided the sequence-1
event is the Create and it is submitted first, no other event is a Create,
and at most one event is a Terminate.  Under these conditions, submitting
1 followed by any permutation of 2..N yields the same final entity state as
submitting 1, 2, …, N in ascending order. -/
theorem C1_reordering_invariance (channel : String)
    (ev : Nat → MessagePayload) (tm : Nat → Nat) (N : Nat)
    (HL : (ev 1).isLaunch = true)
    (HNL : ∀ i, 2 ≤ i → (ev i).isLaunch = false)
    (HE : ∀ i j, (ev i).isExplosion = true → (ev j).isExplosion = true → i = j)
    (hN : 1 ≤ N) (perm : List Nat)
    (hperm : perm.Perm (List.range' 2 (N - 1))) :
    findRocket
      (submitAll emptyDb ((1 :: perm).map (mkMsg channel ev tm))).rockets
      channel =
    findRocket
      (submitAll emptyDb ((List.range' 1 N).map (mkMsg channel ev tm))).rockets
      channel := by
  have h1 := run_canonical channel ev tm N HL HNL HE hN perm hperm
  have h2 := run_canonical channel ev tm N HL HNL HE hN
    (List.range' 2 (N - 1)) (List.Perm.refl _)
  have hr : List.range' 1 N = 1 :: List.range' 2 (N - 1) := by
    have hN' : N = (N - 1) + 1 := by omega
    rw [hN', List.range'_succ]
    norm_num
  rw [h1, hr, h2]

/-- Witness for the amended claim C1 at N = 3 with submission order
1, 3, 2. -/
theorem C1_reordering_invariance_witness :
    findRocket
      (submitAll emptyDb ((1 :: [3, 2]).map (mkMsg exCh exEv exTm))).rockets
      exCh =
    findRocket
      (submitAll emptyDb ((List.range' 1 3).map (mkMsg exCh exEv exTm))).rockets
      exCh :=
  C1_reordering_invariance exCh exEv exTm 3 exEv_launch exEv_no_other_launch
    (fun i j hi _ => by rw [exEv_no_explosion i] at hi; cases hi)
    (by omega) [3, 2] (by decide)

/-- Claim C2: when an event's sequence number is at most the entity's
last-applied sequence, the state transition function is not invoked (the call
ends in the duplicate-skip or out-of-order branch, never the apply branch),
the entity store and the pending buffer are untouched, and afterwards an
applied-event audit record for (channel, seq) is present, so the event cannot
be reprocessed.  The two side conditions are invariants of reachable states:
a sequence at most last-applied is never sitting in the pending buffer, and
the last-applied sequence itself is always in the audit log (every branch
that advances it also writes the record). -/
theorem C2_stale_audited_not_applied (st : DbState) (im : IncomingMessage)
    (r : Rocket) (hfr : findRocket st.rockets im.channel = some r)
    (hle : im.messageNumber ≤ r.lastMessageNumber)
    (hbuf : findBuffered st.buffered im.channel im.messageNumber = none)
    (hlog : (findMessage st.messages im.channel r.lastMessageNumber).isSome) :
    ∃ st' o, processMessage st im = .ok (st', o) ∧
      (o = ProcessOutcome.duplicate ∨ o = ProcessOutcome.outOfOrder) ∧
      st'.rockets = st.rockets ∧ st'.buffered = st.buffered ∧
      (findMessage st'.messages im.channel im.messageNumber).isSome := by
  by_cases hdup : (findMessage st.messages im.channel im.messageNumber).isSome
  · exact ⟨st, .duplicate, processMessage_dup hdup, .inl rfl, rfl, rfl, hdup⟩
  · have hnone : findMessage st.messages im.channel im.messageNumber = none :=
      Option.not_isSome_iff_eq_none.mp hdup
    have hlt : im.messageNumber < r.lastMessageNumber := by
      rcases Nat.lt_or_ge im.messageNumber r.lastMessageNumber with h | h
      · exact h
      · exfalso
        have heq : im.messageNumber = r.lastMessageNumber := by omega
        rw [← heq, hnone] at hlog
        cases hlog
    refine ⟨_, .outOfOrder, processMessage_stale hnone hbuf hfr hlt, .inr rfl,
      rfl, rfl, ?_⟩
    show (findMessage (mkMessageRecord im :: st.messages) im.channel
      im.messageNumber).isSome
    rw [findMessage_cons, if_pos ⟨rfl, rfl⟩]
    rfl

def c2Rocket : Rocket :=
  { channel := exCh, type := "Falcon-9", currentSpeed := 3000,
    mission := "ARTEMIS", status := .ACTIVE, explosionReason := none,
    lastMessageNumber := 5, lastMessageTime := 5 }

def c2St : DbState :=
  { rockets := [c2Rocket],
    messages := [mkMessageRecord (mkMsg exCh exEv exTm 5)], buffered := [] }

/-- Witness for claim C2: a stale SpeedIncrease with sequence 3 against an
entity whose last-applied sequence is 5. -/
theorem C2_stale_audited_not_applied_witness :
    ∃ st' o, processMessage c2St (mkMsg exCh exEv exTm 3) = .ok (st', o) ∧
      (o = ProcessOutcome.duplicate ∨ o = ProcessOutcome.outOfOrder) ∧
      st'.rockets = c2St.rockets ∧ st'.buffered = c2St.buffered ∧
      (findMessage st'.messages (mkMsg exCh exEv exTm 3).channel
        (mkMsg exCh exEv exTm 3).messageNumber).isSome :=
  C2_stale_audited_not_applied c2St (mkMsg exCh exEv exTm 3) c2Rocket
    (by decide) (by decide) (by decide) (by decide)

def c3Rocket : Rocket :=
  { channel := exCh, type := "Falcon-9", currentSpeed := 0,
    mission := "ARTEMIS", status := .EXPLODED,
    explosionReason := some "PRESSURE_VESSEL_FAILURE",
    lastMessageNumber := 5, lastMessageTime := 5 }

def c3St : DbState :=
  { rockets := [c3Rocket], messages := [], buffered := [] }

/-- Claim C3, counterexample.  An in-order SpeedIncrease (sequence 6) against
a TERMINAL entity whose last-applied sequence is 5 leaves the row completely
unchanged: the exploded-rocket branch returns the existing row without
calling the repository update, so last-applied stays 5 instead of advancing
to 6 as the claim states (the audit record is still written).  The
repository's own test (`should not update speed for exploded rockets`)
asserts exactly this no-update behaviour. -/
theorem C3_counterexample :
    submitMessage c3St (mkMsg exCh exEv exTm 6) =
      { c3St with
        messages := [mkMessageRecord (mkMsg exCh exEv exTm 6)] } ∧
    findRocket (submitMessage c3St (mkMsg exCh exEv exTm 6)).rockets exCh =
      some c3Rocket ∧
    c3Rocket.lastMessageNumber = 5 ∧
    (mkMsg exCh exEv exTm 6).messageNumber = 6 := by
  refine ⟨?_, ?_, rfl, rfl⟩ <;> decide

/-- Claim C3 (amended): for a TERMINAL entity, applying an in-order
SpeedIncrease, SpeedDecrease, or MissionChange event leaves the entity
entirely unchanged — speed, mission, status, terminal-reason, and also the
last-applied sequence, which does NOT advance — while an applied-event audit
record for the event is still written. -/
theorem C3_terminal_noop_no_advance (st : DbState) (im : IncomingMessage)
    (r : Rocket) (hfr : findRocket st.rockets im.channel = some r)
    (hst : r.status = .EXPLODED)
    (hk1 : im.payload.isLaunch = false) (hk2 : im.payload.isExplosion = false)
    (hdup1 : findMessage st.messages im.channel im.messageNumber = none)
    (hdup2 : findBuffered st.buffered im.channel im.messageNumber = none)
    (hord : im.messageNumber = r.lastMessageNumber + 1)
    (hnext : findBuffered st.buffered im.channel (im.messageNumber + 1) = none) :
    processMessage st im =
      .ok ({ st with messages := mkMessageRecord im :: st.messages },
        ProcessOutcome.processed) ∧
    findRocket ({ st with messages := mkMessageRecord im :: st.messages } :
      DbState).rockets im.channel = some r := by
  have hA := applyStateChange_noop_terminal st.rockets r im hst hk1 hk2
  constructor
  · rw [processMessage_live hdup1 hdup2 hfr (by omega) (by omega),
      applyAndFinish_ok hA]
    rw [@processBufferedMessages_none
      { rockets := st.rockets, messages := mkMessageRecord im :: st.messages,
        buffered := st.buffered } im.channel (im.messageNumber + 1) hnext]
  · exact hfr

/-- Witness for the amended claim C3. -/
theorem C3_terminal_noop_no_advance_witness :
    processMessage c3St (mkMsg exCh exEv exTm 6) =
      .ok ({ c3St with
        messages := mkMessageRecord (mkMsg exCh exEv exTm 6) :: c3St.messages },
        ProcessOutcome.processed) ∧
    findRocket ({ c3St with
      messages := mkMessageRecord (mkMsg exCh exEv exTm 6) :: c3St.messages } :
      DbState).rockets (mkMsg exCh exEv exTm 6).channel = some c3Rocket :=
  C3_terminal_noop_no_advance c3St (mkMsg exCh exEv exTm 6) c3Rocket
    (by decide) (by decide) (by decide) (by decide) (by decide) (by decide)
    (by decide) (by decide)

def c4Rocket : Rocket :=
  { channel := exCh, type := "Falcon-9", currentSpeed := 700,
    mission := "ARTEMIS", status := .ACTIVE, explosionReason := none,
    lastMessageNumber := 3, lastMessageTime := 3 }

def c4im : IncomingMessage :=
  { channel := exCh, messageNumber := 4, messageTime := 4,
    payload := .rocketLaunched "Atlas-V" 100 "SECOND" }

/-- Claim C4, counterexample.  A Create applied while an entity exists
returns the existing row with no repository write at all: last-applied stays
3 and does not advance to the event's sequence 4 as the claim states. -/
theorem C4_counterexample :
    applyStateChange [c4Rocket] (some c4Rocket) c4im =
      .ok ([c4Rocket], c4Rocket) ∧
    c4Rocket.lastMessageNumber = 3 ∧ c4im.messageNumber = 4 := by
  refine ⟨rfl, rfl, rfl⟩

/-- Claim C4 (amended): a Create event applied when an entity already exists
for the channel is a conflict no-op that returns the existing entity with
every attribute unchanged, including its last-applied sequence, which does
NOT advance to the event's sequence number; the entity table is untouched. -/
theorem C4_create_conflict_noop (t : List Rocket) (r : Rocket)
    (im : IncomingMessage) (ty : String) (s : Int) (mi : String)
    (hp : im.payload = .rocketLaunched ty s mi) :
    applyStateChange t (some r) im = .ok (t, r) :=
  applyStateChange_launch_conflict t r im hp

/-- Witness for the amended claim C4. -/
theorem C4_create_conflict_noop_witness :
    applyStateChange [c4Rocket] (some c4Rocket) c4im =
      .ok ([c4Rocket], c4Rocket) :=
  C4_create_conflict_noop [c4Rocket] c4Rocket c4im "Atlas-V" 100 "SECOND" rfl

theorem processMessage_ok_dup_present (st : DbState) (im : IncomingMessage)
    (st' : DbState) (o : ProcessOutcome)
    (h : processMessage st im = .ok (st', o)) :
    (findMessage st'.messages im.channel im.messageNumber).isSome ∨
    (findBuffered st'.buffered im.channel im.messageNumber).isSome := by
  by_cases h1 : (findMessage st.messages im.channel im.messageNumber).isSome
  · rw [processMessage_dup h1] at h
    simp only [Except.ok.injEq, Prod.mk.injEq] at h
    obtain ⟨h', -⟩ := h
    subst h'
    exact .inl h1
  · have h1n : findMessage st.messages im.channel im.messageNumber = none :=
      Option.not_isSome_iff_eq_none.mp h1
    by_cases h2 : (findBuffered st.buffered im.channel im.messageNumber).isSome
    · rw [processMessage_bufferedDup h1n h2] at h
      simp only [Except.ok.injEq, Prod.mk.injEq] at h
      obtain ⟨h', -⟩ := h
      subst h'
      exact .inr h2
    · have h2n : findBuffered st.buffered im.channel im.messageNumber = none :=
        Option.not_isSome_iff_eq_none.mp h2
      cases hr : findRocket st.rockets im.channel with
      | some rocket =>
        by_cases h4 : im.messageNumber < rocket.lastMessageNumber
        · rw [processMessage_stale h1n h2n hr h4] at h
          simp only [Except.ok.injEq, Prod.mk.injEq] at h
          obtain ⟨h', -⟩ := h
          subst h'
          refine .inl ?_
          show (findMessage (mkMessageRecord im :: st.messages) im.channel
            im.messageNumber).isSome
          rw [findMessage_cons, if_pos ⟨rfl, rfl⟩]
          rfl
        · by_cases h5 : rocket.lastMessageNumber + 1 < im.messageNumber
          · rw [processMessage_future h1n h2n hr h4 h5] at h
            simp only [Except.ok.injEq, Prod.mk.injEq] at h
            obtain ⟨h', -⟩ := h
            subst h'
            refine .inr ?_
            show (findBuffered (mkBufferedMessage im :: st.buffered) im.channel
              im.messageNumber).isSome
            rw [findBuffered_cons, if_pos ⟨rfl, rfl⟩]
            rfl
          · rw [processMessage_live h1n h2n hr h4 h5] at h
            cases hA : applyStateChange st.rockets (some rocket) im with
            | error e =>
              rw [applyAndFinish_error (by cases e; exact hA)] at h
              cases h
            | ok pair =>
              obtain ⟨t', r'⟩ := pair
              rw [applyAndFinish_ok hA] at h
              simp only [Except.ok.injEq, Prod.mk.injEq] at h
              obtain ⟨h', -⟩ := h
              subst h'
              refine .inl (processBufferedMessages_messages_mono _ _ _ _ _ ?_)
              show (findMessage (mkMessageRecord im :: st.messages) im.channel
                im.messageNumber).isSome
              rw [findMessage_cons, if_pos ⟨rfl, rfl⟩]
              rfl
      | none =>
        rw [processMessage_create h1n h2n hr] at h
        cases hA : applyStateChange st.rockets none im with
        | error e =>
          rw [applyAndFinish_error (by cases e; exact hA)] at h
          cases h
        | ok pair =>
          obtain ⟨t', r'⟩ := pair
          rw [applyAndFinish_ok hA] at h
          simp only [Except.ok.injEq, Prod.mk.injEq] at h
          obtain ⟨h', -⟩ := h
          subst h'
          refine .inl (processBufferedMessages_messages_mono _ _ _ _ _ ?_)
          show (findMessage (mkMessageRecord im :: st.messages) im.channel
            im.messageNumber).isSome
          rw [findMessage_cons, if_pos ⟨rfl, rfl⟩]
          rfl

/-- Claim C5: if an applied-event record or a pending-buffer record already
exists for (channel, seq), `processMessage` returns success with the state
completely unchanged (no writes to any of the three stores); consequently,
once a submission has returned success, resubmitting the same message leaves
the state exactly as it was (idempotence: the second call ends in one of the
two duplicate-skip branches). -/
theorem C5_duplicates_are_silent_noops (st : DbState) (im : IncomingMessage) :
    ((findMessage st.messages im.channel im.messageNumber).isSome ∨
      (findBuffered st.buffered im.channel im.messageNumber).isSome →
      ∃ o, processMessage st im = .ok (st, o) ∧
        (o = ProcessOutcome.duplicate ∨ o = ProcessOutcome.bufferedDuplicate)) ∧
    (∀ st' o, processMessage st im = .ok (st', o) →
      ∃ o', processMessage st' im = .ok (st', o') ∧
        (o' = ProcessOutcome.duplicate ∨
          o' = ProcessOutcome.bufferedDuplicate)) := by
  constructor
  · intro h
    by_cases h1 : (findMessage st.messages im.channel im.messageNumber).isSome
    · exact ⟨.duplicate, processMessage_dup h1, .inl rfl⟩
    · have h1n : findMessage st.messages im.channel im.messageNumber = none :=
        Option.not_isSome_iff_eq_none.mp h1
      have h2 : (findBuffered st.buffered im.channel im.messageNumber).isSome :=
        h.resolve_left h1
      exact ⟨.bufferedDuplicate, processMessage_bufferedDup h1n h2, .inr rfl⟩
  · intro st' o h
    rcases processMessage_ok_dup_present st im st' o h with hd | hd
    · exact ⟨.duplicate, processMessage_dup hd, .inl rfl⟩
    · by_cases h1 : (findMessage st'.messages im.channel im.messageNumber).isSome
      · exact ⟨.duplicate, processMessage_dup h1, .inl rfl⟩
      · exact ⟨.bufferedDuplicate,
          processMessage_bufferedDup (Option.not_isSome_iff_eq_none.mp h1) hd,
          .inr rfl⟩

/-- Witness for claim C5: resubmitting sequence 5, which is already in the
applied log, is a silent no-op. -/
theorem C5_duplicates_are_silent_noops_witness :
    ∃ o, processMessage c2St (mkMsg exCh exEv exTm 5) = .ok (c2St, o) ∧
      (o = ProcessOutcome.duplicate ∨ o = ProcessOutcome.bufferedDuplicate) :=
  (C5_duplicates_are_silent_noops c2St (mkMsg exCh exEv exTm 5)).1
    (.inl (by decide))

/-- Claim C6: an event arriving for an existing entity with sequence greater
than last-applied + 1 is stored in the pending buffer and nothing else
changes (entity store and applied log untouched, outcome is the buffering
branch); and after an apply has brought the canonical state to last-applied
N (audit log = 1..N), draining from N+1 applies exactly the contiguous run
of buffered sequence numbers N+1, N+2, … in ascending order (the entity
table becomes the in-order fold up to the end of that run), audits each of
them, removes them from the buffer, and stops at the first missing number
(`chainEnd` is exactly that stopping point). -/
theorem C6_gap_buffering_and_contiguous_drain :
    (∀ (st : DbState) (im : IncomingMessage) (rocket : Rocket),
      findMessage st.messages im.channel im.messageNumber = none →
      findBuffered st.buffered im.channel im.messageNumber = none →
      findRocket st.rockets im.channel = some rocket →
      rocket.lastMessageNumber + 1 < im.messageNumber →
      processMessage st im =
        .ok ({ st with buffered := mkBufferedMessage im :: st.buffered },
          ProcessOutcome.buffered)) ∧
    (∀ (channel : String) (ev : Nat → MessagePayload) (tm : Nat → Nat)
      (bn : List Nat) (st : DbState) (N : Nat),
      (ev 1).isLaunch = true → (∀ i, 2 ≤ i → (ev i).isLaunch = false) →
      1 ≤ N → bn.Nodup →
      st.rockets = foldApply channel ev tm N →
      (∀ j, (findMessage st.messages channel j).isSome ↔ (1 ≤ j ∧ j ≤ N)) →
      st.buffered = bn.map (bufRec channel ev tm) →
      ∃ bn' : List Nat, bn'.Nodup ∧
        (∀ j, j ∈ bn' ↔ (j ∈ bn ∧ ¬(N + 1 ≤ j ∧ j ≤ chainEnd bn (N + 1)))) ∧
        (processBufferedMessages st channel (N + 1)).rockets =
          foldApply channel ev tm (chainEnd bn (N + 1)) ∧
        (∀ j, (findMessage (processBufferedMessages st channel (N + 1)).messages
          channel j).isSome ↔ (1 ≤ j ∧ j ≤ chainEnd bn (N + 1))) ∧
        (processBufferedMessages st channel (N + 1)).buffered =
          bn'.map (bufRec channel ev tm)) := by
  constructor
  · intro st im rocket h1 h2 h3 h5
    exact processMessage_future h1 h2 h3 (by omega) h5
  · intro channel ev tm bn st N HL HNL hN hnd hrock hmsgs hbuf
    exact drain_spec channel ev tm HL HNL bn st (N + 1) (by omega) hnd hrock
      hmsgs hbuf

def c6Rocket : Rocket :=
  { channel := exCh, type := "Falcon-9", currentSpeed := 500,
    mission := "ARTEMIS", status := .ACTIVE, explosionReason := none,
    lastMessageNumber := 1, lastMessageTime := 1 }

def c6aSt : DbState :=
  { rockets := [c6Rocket], messages := [], buffered := [] }

def c6St : DbState :=
  { rockets := foldApply exCh exEv exTm 2,
    messages := [mkMessageRecord (mkMsg exCh exEv exTm 2),
      mkMessageRecord (mkMsg exCh exEv exTm 1)],
    buffered := [3, 4, 6].map (bufRec exCh exEv exTm) }

/-- Witness for claim C6: buffering a gapped sequence 3 when last-applied is
1, and draining buffered 3, 4, 6 from expected number 3 after last-applied 2
(the drain consumes 3 and 4 and stops before 6). -/
theorem C6_gap_buffering_and_contiguous_drain_witness :
    (processMessage c6aSt (mkMsg exCh exEv exTm 3) =
      .ok ({ c6aSt with
        buffered := mkBufferedMessage (mkMsg exCh exEv exTm 3) ::
          c6aSt.buffered }, ProcessOutcome.buffered)) ∧
    (∃ bn' : List Nat, bn'.Nodup ∧
      (∀ j, j ∈ bn' ↔ (j ∈ [3, 4, 6] ∧
        ¬(2 + 1 ≤ j ∧ j ≤ chainEnd [3, 4, 6] (2 + 1)))) ∧
      (processBufferedMessages c6St exCh (2 + 1)).rockets =
        foldApply exCh exEv exTm (chainEnd [3, 4, 6] (2 + 1)) ∧
      (∀ j, (findMessage (processBufferedMessages c6St exCh (2 + 1)).messages
        exCh j).isSome ↔ (1 ≤ j ∧ j ≤ chainEnd [3, 4, 6] (2 + 1))) ∧
      (processBufferedMessages c6St exCh (2 + 1)).buffered =
        bn'.map (bufRec exCh exEv exTm)) := by
  constructor
  · exact C6_gap_buffering_and_contiguous_drain.1 c6aSt
      (mkMsg exCh exEv exTm 3) c6Rocket (by decide) (by decide) (by decide)
      (by decide)
  · refine C6_gap_buffering_and_contiguous_drain.2 exCh exEv exTm [3, 4, 6]
      c6St 2 exEv_launch exEv_no_other_launch (by omega) (by decide) rfl ?_ rfl
    intro j
    show (findMessage [mkMessageRecord (mkMsg exCh exEv exTm 2),
      mkMessageRecord (mkMsg exCh exEv exTm 1)] exCh j).isSome ↔ (1 ≤ j ∧ j ≤ 2)
    rw [findMessage_cons]
    by_cases h2 : j = 2
    · subst h2
      rw [if_pos ⟨rfl, rfl⟩]
      simp
    · rw [if_neg (fun hc => h2 hc.2.symm), findMessage_cons]
      by_cases h1 : j = 1
      · subst h1
        rw [if_pos ⟨rfl, rfl⟩]
        simp
      · rw [if_neg (fun hc => h1 hc.2.symm)]
        show (findMessage [] exCh j).isSome ↔ _
        constructor
        · intro h
          cases h
        · intro h
          omega

def c7Rocket : Rocket :=
  { channel := exCh, type := "Falcon-9", currentSpeed := 0,
    mission := "ARTEMIS", status := .EXPLODED, explosionReason := some "X",
    lastMessageNumber := 2, lastMessageTime := 2 }

def c7im : IncomingMessage :=
  { channel := exCh, messageNumber := 3, messageTime := 3,
    payload := .rocketExploded "Y" }

def c7RocketY : Rocket :=
  { channel := exCh, type := "Falcon-9", currentSpeed := 0,
    mission := "ARTEMIS", status := .EXPLODED, explosionReason := some "Y",
    lastMessageNumber := 3, lastMessageTime := 3 }

/-- Claim C7, counterexample.  The Terminate branch does not check the
current status, so a further Terminate applied to a TERMINAL entity
overwrites the terminal-reason (and advances last-applied): the claim that
no operation ever changes the terminal-reason of a TERMINAL entity is
false. -/
theorem C7_counterexample :
    applyStateChange [c7Rocket] (some c7Rocket) c7im =
      .ok ([c7RocketY], c7RocketY) ∧
    c7Rocket.status = .EXPLODED ∧
    c7Rocket.explosionReason = some "X" ∧
    c7RocketY.explosionReason = some "Y" := by
  refine ⟨rfl, rfl, rfl, rfl⟩

/-- Claim C7 (amended): for a TERMINAL entity, every non-Terminate event
(SpeedIncrease, SpeedDecrease, MissionChange, and a conflicting Create)
returns the entity completely unchanged with no table write; a further
Terminate, however, does go through: it overwrites the terminal-reason with
the new reason, keeps status TERMINAL, sets speed to 0, and advances
last-applied to the event's sequence number. -/
theorem C7_terminal_frozen_except_terminate (t : List Rocket) (r : Rocket)
    (im : IncomingMessage) (hst : r.status = .EXPLODED) :
    (im.payload.isExplosion = false →
      applyStateChange t (some r) im = .ok (t, r)) ∧
    (∀ reason, im.payload = .rocketExploded reason →
      applyStateChange t (some r) im =
        .ok (updateRocket t im.channel
          { r with
            status := .EXPLODED, explosionReason := some reason,
            currentSpeed := 0, lastMessageNumber := im.messageNumber,
            lastMessageTime := im.messageTime },
          { r with
            status := .EXPLODED, explosionReason := some reason,
            currentSpeed := 0, lastMessageNumber := im.messageNumber,
            lastMessageTime := im.messageTime })) := by
  constructor
  · intro hexp
    by_cases hl : im.payload.isLaunch = true
    · obtain ⟨ty, s, mi, hp⟩ := (isLaunch_iff im.payload).mp hl
      exact applyStateChange_launch_conflict t r im hp
    · exact applyStateChange_noop_terminal t r im hst
        (by cases h : im.payload.isLaunch
            · rfl
            · exact absurd h hl) hexp
  · intro reason hp
    obtain ⟨c, n, tme, p⟩ := im
    simp only at hp
    subst hp
    rfl

/-- Witness for the amended claim C7: a SpeedIncrease against the terminal
entity is a complete no-op, and a further Terminate overwrites the reason. -/
theorem C7_terminal_frozen_except_terminate_witness :
    (applyStateChange [c7Rocket] (some c7Rocket) (mkMsg exCh exEv exTm 3) =
      .ok ([c7Rocket], c7Rocket)) ∧
    (applyStateChange [c7Rocket] (some c7Rocket) c7im =
      .ok (updateRocket [c7Rocket] c7im.channel
        { c7Rocket with
          status := .EXPLODED, explosionReason := some "Y",
          currentSpeed := 0, lastMessageNumber := c7im.messageNumber,
          lastMessageTime := c7im.messageTime },
        { c7Rocket with
          status := .EXPLODED, explosionReason := some "Y",
          currentSpeed := 0, lastMessageNumber := c7im.messageNumber,
          lastMessageTime := c7im.messageTime })) :=
  ⟨(C7_terminal_frozen_except_terminate [c7Rocket] c7Rocket
      (mkMsg exCh exEv exTm 3) rfl).1 (by decide),
   (C7_terminal_frozen_except_terminate [c7Rocket] c7Rocket c7im rfl).2
      "Y" rfl⟩

/-- Claim C8: for an ACTIVE entity, a SpeedDecrease(by) with by > 0 yields
speed max(0, speed − by); when by exceeds the current speed the result is
exactly 0, and the resulting speed is never negative; last-applied advances
to the event's sequence number. -/
theorem C8_speed_decrease_clamped (t : List Rocket) (r : Rocket)
    (im : IncomingMessage) (b : Int)
    (hp : im.payload = .rocketSpeedDecreased b) (hb : 0 < b)
    (hst : r.status = .ACTIVE) :
    ∃ t' r', applyStateChange t (some r) im = .ok (t', r') ∧
      r'.currentSpeed = max 0 (r.currentSpeed - b) ∧
      (r.currentSpeed < b → r'.currentSpeed = 0) ∧
      0 ≤ r'.currentSpeed ∧
      r'.lastMessageNumber = im.messageNumber := by
  obtain ⟨c, n, tme, p⟩ := im
  simp only at hp
  subst hp
  have hne : ¬(r.status = RocketStatus.EXPLODED) := by
    rw [hst]
    intro h
    cases h
  refine ⟨updateRocket t c { r with
      currentSpeed := max 0 (r.currentSpeed - b),
      lastMessageNumber := n, lastMessageTime := tme },
    { r with
      currentSpeed := max 0 (r.currentSpeed - b),
      lastMessageNumber := n, lastMessageTime := tme }, ?_, rfl, ?_, ?_, rfl⟩
  · simp [applyStateChange, hne]
  · intro h
    show max 0 (r.currentSpeed - b) = 0
    omega
  · show 0 ≤ max 0 (r.currentSpeed - b)
    exact le_max_left 0 _

def c8Rocket : Rocket :=
  { channel := exCh, type := "Falcon-9", currentSpeed := 500,
    mission := "ARTEMIS", status := .ACTIVE, explosionReason := none,
    lastMessageNumber := 1, lastMessageTime := 1 }

def c8im : IncomingMessage :=
  { channel := exCh, messageNumber := 2, messageTime := 2,
    payload := .rocketSpeedDecreased 1000 }

/-- Witness for claim C8: decreasing speed 500 by 1000 clamps to 0. -/
theorem C8_speed_decrease_clamped_witness :
    ∃ t' r', applyStateChange [c8Rocket] (some c8Rocket) c8im = .ok (t', r') ∧
      r'.currentSpeed = max 0 (c8Rocket.currentSpeed - 1000) ∧
      (c8Rocket.currentSpeed < 1000 → r'.currentSpeed = 0) ∧
      0 ≤ r'.currentSpeed ∧
      r'.lastMessageNumber = c8im.messageNumber :=
  C8_speed_decrease_clamped [c8Rocket] c8Rocket c8im 1000 rfl (by decide) rfl

/-- Claim C9: when the entity for a channel is absent at a drain step, the
drain deletes the orphaned pending record and stops (entity store and
applied log untouched, no further recursion); and since a successful apply
always wraps the drain's result — the drain is a total function, mirroring
the source's catch-all that never rethrows — in a success value, the
triggering submit call still returns success. -/
theorem C9_drain_absent_entity_deletes_orphan :
    (∀ (st : DbState) (channel : String) (k : Nat) (b : BufferedMessage),
      findBuffered st.buffered channel k = some b →
      findRocket st.rockets channel = none →
      processBufferedMessages st channel k =
        { st with buffered := eraseBuffered st.buffered channel k }) ∧
    (∀ (st : DbState) (rocket : Option Rocket) (im : IncomingMessage)
      (t' : List Rocket) (r' : Rocket),
      applyStateChange st.rockets rocket im = .ok (t', r') →
      applyAndFinish st rocket im =
        .ok (processBufferedMessages
          { rockets := t', messages := mkMessageRecord im :: st.messages,
            buffered := st.buffered } im.channel (im.messageNumber + 1),
          ProcessOutcome.processed)) :=
  ⟨fun _ _ _ _ hb hr => processBufferedMessages_orphan hb hr,
   fun _ _ _ _ _ h => applyAndFinish_ok h⟩

def c9St : DbState :=
  { rockets := [], messages := [],
    buffered := [bufRec exCh exEv exTm 2, bufRec exCh exEv exTm 5] }

/-- Witness for claim C9: draining expected number 2 with no entity present
deletes the orphaned record for 2 and leaves the rest of the state alone. -/
theorem C9_drain_absent_entity_deletes_orphan_witness :
    processBufferedMessages c9St exCh 2 =
      { c9St with buffered := eraseBuffered c9St.buffered exCh 2 } :=
  C9_drain_absent_entity_deletes_orphan.1 c9St exCh 2
    (bufRec exCh exEv exTm 2) (by decide) (by decide)

/-- Claim C10: the statistics operation computes averageSpeed over ACTIVE
entities only — prepending an EXPLODED entity leaves it unchanged — it is 0
when no ACTIVE entity exists, and it is the true rational average over the
ACTIVE entities rounded to the nearest integer (within 1/2, with
`Math.round`'s half-up tie-breaking). -/
theorem C10_statistics_average_active_only (rockets : List Rocket) :
    (∀ r : Rocket, r.status = .EXPLODED →
      (getRocketStatistics (r :: rockets)).averageSpeed =
        (getRocketStatistics rockets).averageSpeed) ∧
    ((∀ r ∈ rockets, r.status ≠ .ACTIVE) →
      (getRocketStatistics rockets).averageSpeed = 0) ∧
    |((getRocketStatistics rockets).averageSpeed : ℚ) -
      getAverageSpeed rockets (some .ACTIVE)| ≤ 1 / 2 := by
  refine ⟨?_, ?_, ?_⟩
  · intro r hr
    have hfil : filterByStatus (r :: rockets) (some .ACTIVE) =
        filterByStatus rockets (some .ACTIVE) := by
      show List.filter (fun x => x.status == RocketStatus.ACTIVE) (r :: rockets)
        = List.filter (fun x => x.status == RocketStatus.ACTIVE) rockets
      rw [List.filter_cons_of_neg]
      simp [hr]
    show round (getAverageSpeed (r :: rockets) (some .ACTIVE)) =
      round (getAverageSpeed rockets (some .ACTIVE))
    have havg : getAverageSpeed (r :: rockets) (some .ACTIVE) =
        getAverageSpeed rockets (some .ACTIVE) := by
      unfold getAverageSpeed
      rw [hfil]
    rw [havg]
  · intro h
    have hfil : filterByStatus rockets (some .ACTIVE) = [] := by
      show List.filter (fun x => x.status == RocketStatus.ACTIVE) rockets = []
      rw [List.filter_eq_nil]
      intro a ha
      simpa using h a ha
    show round (getAverageSpeed rockets (some .ACTIVE)) = 0
    have havg : getAverageSpeed rockets (some .ACTIVE) = 0 := by
      unfold getAverageSpeed
      rw [hfil]
    rw [havg]
    exact round_zero
  · have hdef : (getRocketStatistics rockets).averageSpeed =
        round (getAverageSpeed rockets (some .ACTIVE)) := rfl
    rw [hdef, abs_sub_comm]
    exact abs_sub_round _

def c10Active : Rocket :=
  { channel := exCh, type := "Falcon-9", currentSpeed := 500,
    mission := "ARTEMIS", status := .ACTIVE, explosionReason := none,
    lastMessageNumber := 1, lastMessageTime := 1 }

def c10Active2 : Rocket :=
  { channel := "ch-2", type := "Atlas-V", currentSpeed := 501,
    mission := "MIR", status := .ACTIVE, explosionReason := none,
    lastMessageNumber := 1, lastMessageTime := 1 }

def c10Exploded : Rocket :=
  { channel := "ch-3", type := "Falcon-9", currentSpeed := 9999,
    mission := "ARTEMIS", status := .EXPLODED, explosionReason := some "X",
    lastMessageNumber := 1, lastMessageTime := 1 }

/-- Witness for claim C10 on a concrete table of two ACTIVE rockets and one
EXPLODED rocket. -/
theorem C10_statistics_average_active_only_witness :
    ((getRocketStatistics (c10Exploded :: [c10Active, c10Active2])).averageSpeed
      = (getRocketStatistics [c10Active, c10Active2]).averageSpeed) ∧
    ((getRocketStatistics [c10Exploded]).averageSpeed = 0) ∧
    |((getRocketStatistics [c10Active, c10Active2]).averageSpeed : ℚ) -
      getAverageSpeed [c10Active, c10Active2] (some .ACTIVE)| ≤ 1 / 2 :=
  ⟨(C10_statistics_average_active_only [c10Active, c10Active2]).1 c10Exploded
      rfl,
   (C10_statistics_average_active_only [c10Exploded]).2.1 (by
      intro r hr h
      rcases List.mem_singleton.mp hr with h'
      subst h'
      cases h),
   (C10_statistics_average_active_only [c10Active, c10Active2]).2.2⟩
